import Mathlib

/-!
Verification of the cppcheck token-stream core (lib/token.cpp, lib/valueflow.h).

The development is a shallow embedding of the token stream, its mutation
operations, the value-flow value model, the classification routine
`update_property_info`, the pattern-matching engine (`Match`,
`multiCompare`, `multiComparePercent`, `findmatch`), bracket scanning
(`findClosingBracket`) and the indexed accessors (`tokAt`, `strAt`,
`linkAt`).

Modelling conventions:
- C++ strings are `List Char` (`Str`); the C terminator `'\0'` is the end of
  the list, and reading one position past a C string yields the NUL
  character (`at0` returns NUL past the end).
- The token stream is an association list from token ids (`Nat`, playing
  the role of `Token*`) to token records; `none` is the null pointer.
  Dereferencing a dangling id behaves like dereferencing null (the C++
  original is undefined there).
- Machine `unsigned int` arithmetic (the `depth` counter of
  `findClosingBracket`) is `Nat` with explicit reduction mod 2^32.
- `double` (`ValueFlow::Value::floatValue`) is modelled as `ℚ`; the
  comparison `!(a > b || a < b)` used by `operator==` then coincides with
  equality (NaN behaviour is outside the model).
- Fields of `Token`/`TokenImpl` that no verified claim mentions
  (source position, progress value, symbol-database back references,
  template-simplifier pointer lists, cppcheck attributes) are omitted; the
  operations on the modelled fields follow token.cpp statement by
  statement.
- `Token::str(...)`, `Token::link(...)` and the one-line classification
  accessors live in token.h, which is not part of the sources; they are
  modelled from the specification where needed and marked as such.
-/

set_option maxRecDepth 4000

/-- C++ `std::string` / `const char *` contents as a list of characters. -/
abbrev Str : Type := List Char

/-- The NUL character that terminates C strings. -/
def nulChar : Char := Char.ofNat 0

/-- Read `s[n]`; reading at or past the end of a C string yields NUL. -/
def at0 (s : Str) (n : Nat) : Char := s.getD n nulChar

namespace ValueFlow

/-- `ValueFlow::Value::ValueType` from valueflow.h. -/
inductive ValueType where
  | INT | TOK | FLOAT | MOVED | UNINIT | CONTAINER_SIZE | LIFETIME | BUFFER_SIZE
deriving DecidableEq, Repr

/-- `ValueFlow::Value::MoveKind`. -/
inductive MoveKind where
  | NonMovedVariable | MovedVariable | ForwardedVariable
deriving DecidableEq, Repr

/-- `ValueFlow::Value::LifetimeKind`. -/
inductive LifetimeKind where
  | Object | Lambda | Iterator | Address
deriving DecidableEq, Repr

/-- `ValueFlow::Value::LifetimeScope`. -/
inductive LifetimeScope where
  | Local | Argument
deriving DecidableEq, Repr

/-- `ValueFlow::Value::ValueKind`. -/
inductive ValueKind where
  | Possible | Known | Inconclusive
deriving DecidableEq, Repr

/-- `ValueFlow::Value`.  Token pointers (`tokvalue`, `condition`, the error
path entries) are token ids (`Option Nat`, `none` = null).  `floatValue`
is `ℚ` standing in for `double`.  Defaults are those of the default
constructor `Value(0)`. -/
structure Value where
  valueType : ValueType := ValueType.INT
  intvalue : Int := 0
  tokvalue : Option Nat := none
  floatValue : ℚ := 0
  moveKind : MoveKind := MoveKind.NonMovedVariable
  varvalue : Int := 0
  condition : Option Nat := none
  errorPath : List (Option Nat × Str) := []
  varId : Nat := 0
  conditional : Bool := false
  defaultArg : Bool := false
  lifetimeKind : LifetimeKind := LifetimeKind.Object
  lifetimeScope : LifetimeScope := LifetimeScope.Local
  valueKind : ValueKind := ValueKind.Possible
deriving DecidableEq, Repr

/-- `Value::isKnown`. -/
def Value.isKnown (v : Value) : Bool := v.valueKind == ValueKind.Known

/-- `Value::isPossible`. -/
def Value.isPossible (v : Value) : Bool := v.valueKind == ValueKind.Possible

/-- `Value::isInconclusive`. -/
def Value.isInconclusive (v : Value) : Bool := v.valueKind == ValueKind.Inconclusive

/-- `Value::isIntValue`. -/
def Value.isIntValue (v : Value) : Bool := v.valueType == ValueType.INT

/-- `Value::isTokValue`. -/
def Value.isTokValue (v : Value) : Bool := v.valueType == ValueType.TOK

/-- `Value::isFloatValue`. -/
def Value.isFloatValue (v : Value) : Bool := v.valueType == ValueType.FLOAT

/-- `Value::isLifetimeValue`. -/
def Value.isLifetimeValue (v : Value) : Bool := v.valueType == ValueType.LIFETIME

/-- `ValueFlow::Value::operator==` from valueflow.h lines 61-103: compare
the variant tag, the payload selected by it, and the trailing metadata
conjunction.  The float comparison `!(a > b || a < b)` is kept verbatim. -/
def valueEq (a b : Value) : Bool :=
  if a.valueType != b.valueType then false
  else
    let payload : Bool :=
      match a.valueType with
      | ValueType.INT => a.intvalue == b.intvalue
      | ValueType.TOK => a.tokvalue == b.tokvalue
      | ValueType.FLOAT =>
          !(decide (a.floatValue > b.floatValue) || decide (a.floatValue < b.floatValue))
      | ValueType.MOVED => a.moveKind == b.moveKind
      | ValueType.UNINIT => true
      | ValueType.BUFFER_SIZE => a.intvalue == b.intvalue
      | ValueType.CONTAINER_SIZE => a.intvalue == b.intvalue
      | ValueType.LIFETIME => a.tokvalue == b.tokvalue
    payload &&
      (a.varvalue == b.varvalue &&
       a.condition == b.condition &&
       a.varId == b.varId &&
       a.conditional == b.conditional &&
       a.defaultArg == b.defaultArg &&
       a.valueKind == b.valueKind)

end ValueFlow

open ValueFlow

/-- `tokvalue->str()`: resolve a token id through the stream's string
oracle; the null pointer yields the empty string (the C++ dereference of
null there is undefined, it is never reached in the verified claims). -/
def tokStrOf (strOf : Nat → Str) : Option Nat → Str
  | some i => strOf i
  | none => []

/-- The duplicate test of the dedup loop in `Token::addValue`
(token.cpp lines 1704-1713): same `intvalue`, same `valueType`, and for
tok/lifetime values not both a different `tokvalue` pointer and a
different `tokvalue->str()`. -/
def dupMatch (strOf : Nat → Str) (it v : Value) : Bool :=
  if it.intvalue != v.intvalue then false
  else if it.valueType != v.valueType then false
  else if (v.isTokValue || v.isLifetimeValue) && (it.tokvalue != v.tokvalue)
          && (tokStrOf strOf it.tokvalue != tokStrOf strOf v.tokvalue) then false
  else true

/-- `if (v.varId == 0) v.varId = mImpl->mVarId` — fill a missing varId
from the owning token (token.cpp lines 1718-1719, 1730-1731, 1739-1740). -/
def fillVarId (tokVarId : Nat) (v : Value) : Value :=
  if v.varId = 0 then { v with varId := tokVarId } else v

/-- The dedup scan of `Token::addValue` (token.cpp lines 1703-1725):
`none` when no existing value matches; `some (ret, l)` when the scan hit a
match, where `ret` is the return value of `addValue` (true when the
inconclusive entry was replaced) and `l` the resulting list. -/
def dedupLoop (strOf : Nat → Str) (tokVarId : Nat) (v : Value) :
    List Value → Option (Bool × List Value)
  | [] => none
  | it :: rest =>
    if dupMatch strOf it v then
      if it.isInconclusive && !v.isInconclusive then
        some (true, fillVarId tokVarId v :: rest)
      else
        some (false, it :: rest)
    else
      match dedupLoop strOf tokVarId v rest with
      | some (b, l) => some (b, it :: l)
      | none => none

/-- `Token::addValue` (token.cpp lines 1687-1745) acting on the owned
state it touches: the token's `mVarId` and its lazily allocated value
list (`none` = the list was never allocated).  Returns the C++ return
value together with the new list. -/
def addValue (strOf : Nat → Str) (tokVarId : Nat)
    (values : Option (List Value)) (v : Value) : Bool × Option (List Value) :=
  let values1 : Option (List Value) :=
    match values with
    | some l =>
        if v.isKnown then some (l.filter (fun x => !(x.valueType == v.valueType)))
        else some l
    | none => none
  match values1 with
  | some l =>
    if l.length ≥ 10 then (false, some l)
    else
      match dedupLoop strOf tokVarId v l with
      | some (b, l2) => (b, some l2)
      | none =>
        let w := fillVarId tokVarId v
        if w.isKnown && w.isIntValue then (true, some (w :: l))
        else (true, some (l ++ [w]))
  | none => (true, some [fillVarId tokVarId v])

/-! ## Token model and classification (token.cpp lines 37-180) -/

/-- `Token::Type` (the token-kind enumeration used throughout token.cpp). -/
inductive TokType where
  | eNone | eVariable | eType | eFunction | eKeyword | eName | eNumber
  | eString | eChar | eBoolean | eLambda
  | eAssignmentOp | eExtendedOp | eArithmeticalOp | eBitOp | eLogicalOp
  | eComparisonOp | eIncDecOp | eBracket | eOther
deriving DecidableEq, Repr

/-- The bits of `mFlags` that the verified claims inspect; every other bit
is carried unchanged in `rest`. -/
structure Flags where
  isLong : Bool := false
  isStandardType : Bool := false
  isControlFlowKeyword : Bool := false
  rest : Nat := 0
deriving DecidableEq, Repr

/-- One token of the stream.  `link`, `nprev`, `nnext` are token ids
(`none` = null pointer).  `varId`, `values` and `origName` are the
`TokenImpl` state the claims touch; the impl is transferred or swapped as
a unit exactly where token.cpp moves `mImpl`. -/
structure TokNode where
  str : Str := []
  tokType : TokType := TokType.eNone
  flags : Flags := {}
  link : Option Nat := none
  nprev : Option Nat := none
  nnext : Option Nat := none
  varId : Nat := 0
  values : Option (List ValueFlow.Value) := none
  origName : Str := []
deriving DecidableEq, Repr

/-- `literal_prefix` (token.cpp line 37). -/
def literalPrefixes : List Str := [("u8".toList), ("u".toList), ("U".toList), ("L".toList)]

/-- `endsWith(str, q)` from utils.h specialised to one character: the last
character equals `q` (false on the empty string). -/
def endsWithC (s : Str) (q : Char) : Bool := s.getLast? == some q

/-- `isStringCharLiteral` (token.cpp lines 39-52).  `str.compare(0, n, s)
== 0` is `s.isPrefixOf str` (both fail when `str` is shorter than `s`). -/
def isStringCharLiteral (str : Str) (q : Char) : Bool :=
  if !(endsWithC str q) then false
  else if at0 str 0 == q && decide (str.length > 1) then true
  else literalPrefixes.any (fun p =>
    decide (str.length + 1 > p.length) && (p ++ [q]).isPrefixOf str)

/-- `std::isalpha` on an unsigned char in the C locale (ASCII letters). -/
def cIsAlpha (c : Char) : Bool := (decide ('a' ≤ c) && decide (c ≤ 'z')) || (decide ('A' ≤ c) && decide (c ≤ 'Z'))

/-- `std::isdigit` in the C locale. -/
def cIsDigit (c : Char) : Bool := decide ('0' ≤ c) && decide (c ≤ '9')

/-- `controlFlowKeywords` (token.cpp lines 71-83). -/
def controlFlowKeywords : List Str :=
  [("goto".toList), ("do".toList), ("if".toList), ("else".toList), ("for".toList),
   ("while".toList), ("switch".toList), ("case".toList), ("break".toList),
   ("continue".toList), ("return".toList)]

/-- `stdTypes` (token.cpp lines 141-152). -/
def stdTypes : List Str :=
  [("bool".toList), ("_Bool".toList), ("char".toList), ("double".toList),
   ("float".toList), ("int".toList), ("long".toList), ("short".toList),
   ("size_t".toList), ("void".toList), ("wchar_t".toList)]

/-- The kind-classification chain of `Token::update_property_info`
(token.cpp lines 89-135), branch for branch and in source order.  Only
the Name branch consults the previous kind `prev`; `hasLink` is
`mLink != nullptr`. -/
def classifyStr (str : Str) (varId : Nat) (hasLink : Bool) (prev : TokType) : TokType :=
  if str = [] then TokType.eNone
  else if str = ("true".toList) ∨ str = ("false".toList) then TokType.eBoolean
  else if isStringCharLiteral str '\"' = true then TokType.eString
  else if isStringCharLiteral str '\'' = true then TokType.eChar
  else if cIsAlpha (at0 str 0) = true ∨ at0 str 0 = '_' ∨ at0 str 0 = '$' then
    (if varId ≠ 0 then TokType.eVariable
     else if prev ≠ TokType.eVariable ∧ prev ≠ TokType.eFunction ∧
             prev ≠ TokType.eType ∧ prev ≠ TokType.eKeyword then TokType.eName
     else prev)
  else if cIsDigit (at0 str 0) = true ∨
          (str.length > 1 ∧ at0 str 0 = '-' ∧ cIsDigit (at0 str 1) = true) then TokType.eNumber
  else if str = ("=".toList) ∨ str = ("<<=".toList) ∨ str = (">>=".toList) ∨
          (str.length = 2 ∧ at0 str 1 = '=' ∧ ("+-*/%&^|".toList).contains (at0 str 0) = true) then
    TokType.eAssignmentOp
  else if str.length = 1 ∧ (",[]()?:".toList).contains (at0 str 0) = true then TokType.eExtendedOp
  else if str = ("<<".toList) ∨ str = (">>".toList) ∨
          (str.length = 1 ∧ ("+-*/%".toList).contains (at0 str 0) = true) then TokType.eArithmeticalOp
  else if str.length = 1 ∧ ("&|^~".toList).contains (at0 str 0) = true then TokType.eBitOp
  else if str = ("&&".toList) ∨ str = ("||".toList) ∨ str = ("!".toList) then TokType.eLogicalOp
  else if hasLink = false ∧ (str = ("==".toList) ∨ str = ("!=".toList) ∨ str = ("<".toList) ∨
          str = ("<=".toList) ∨ str = (">".toList) ∨ str = (">=".toList)) then TokType.eComparisonOp
  else if str = ("++".toList) ∨ str = ("--".toList) then TokType.eIncDecOp
  else if str.length = 1 ∧ (("{}".toList).contains (at0 str 0) = true ∨
          (hasLink = true ∧ ("<>".toList).contains (at0 str 0) = true)) then TokType.eBracket
  else TokType.eOther

/-- `Token::update_property_char_string_literal` (token.cpp lines
167-180): strip a literal prefix from a string/char token and record
`isLong` unless the prefix was `u8`. -/
def update_property_char_string_literal (t : TokNode) : TokNode :=
  if ¬(t.tokType = TokType.eString ∨ t.tokType = TokType.eChar) then t
  else
    match literalPrefixes.find? (fun p =>
      (decide (t.tokType = TokType.eString) && (p ++ ['\"']).isPrefixOf t.str) ||
      (decide (t.tokType = TokType.eChar) && (p ++ ['\'']).isPrefixOf t.str)) with
    | some p => { t with str := t.str.drop p.length,
                         flags := { t.flags with isLong := p != ("u8".toList) } }
    | none => t

/-- `Token::update_property_isStandardType` (token.cpp lines 154-165). -/
def update_property_isStandardType (t : TokNode) : TokNode :=
  let t1 := { t with flags := { t.flags with isStandardType := false } }
  if t1.str.length < 3 then t1
  else if stdTypes.contains t1.str then
    { t1 with flags := { t1.flags with isStandardType := true }, tokType := TokType.eType }
  else t1

/-- `Token::update_property_info` (token.cpp lines 85-139). -/
def update_property_info (t : TokNode) : TokNode :=
  let t1 := { t with flags := { t.flags with isControlFlowKeyword := controlFlowKeywords.contains t.str } }
  let t2 := { t1 with tokType := classifyStr t1.str t1.varId t1.link.isSome t1.tokType }
  update_property_isStandardType (update_property_char_string_literal t2)

/-- Modelled from the spec: the `Token::str` setter lives in token.h,
which is not among the sources.  Per §3 ("str: the lexeme (mutable;
re-classifies the token on change)") and §4.2 ("Invoked whenever `str` is
(re)assigned") it stores the new lexeme and reruns
`update_property_info`. -/
def strAssign (t : TokNode) (s : Str) : TokNode :=
  update_property_info { t with str := s }

/-! ## The token stream: an association list of live tokens plus the
`TokensFrontBack` anchor -/

/-- The heap of live tokens: id → token record. -/
abbrev Mem : Type := List (Nat × TokNode)

/-- Dereference a token id (`none` = null or dangling). -/
def mget : Mem → Nat → Option TokNode
  | [], _ => none
  | (k, t) :: r, i => if i = k then some t else mget r i

/-- In-place update of the token with id `i` (no-op when `i` is dead). -/
def updTok (m : Mem) (i : Nat) (f : TokNode → TokNode) : Mem :=
  m.map (fun p => if p.1 = i then (p.1, f p.2) else p)

/-- `delete tok` — remove a token from the heap. -/
def mdel (m : Mem) (i : Nat) : Mem := m.filter (fun p => p.1 != i)

/-- `tok->link()` through a possibly dead id. -/
def getLinkId (m : Mem) (i : Nat) : Option Nat := (mget m i).bind (fun t => t.link)

/-- `tok->next()` through a possibly dead id. -/
def getNextId (m : Mem) (i : Nat) : Option Nat := (mget m i).bind (fun t => t.nnext)

/-- `tok->previous()` through a possibly dead id. -/
def getPrevId (m : Mem) (i : Nat) : Option Nat := (mget m i).bind (fun t => t.nprev)

/-- `tok->link(l)` — plain pointer assignment per spec §4.1. -/
def setLinkF (m : Mem) (i : Nat) (l : Option Nat) : Mem :=
  updTok m i (fun t => { t with link := l })

/-- `tok->next(v)` — pointer assignment. -/
def setNextF (m : Mem) (i : Nat) (v : Option Nat) : Mem :=
  updTok m i (fun t => { t with nnext := v })

/-- `tok->previous(v)` — pointer assignment. -/
def setPrevF (m : Mem) (i : Nat) (v : Option Nat) : Mem :=
  updTok m i (fun t => { t with nprev := v })

/-- A token stream: the heap plus the `TokensFrontBack` anchor. -/
structure TStream where
  mem : Mem
  front : Nat
  back : Nat
deriving Repr

/-- Bracket-link symmetry over live tokens: every link points at a live
token whose link points back (spec §8, "Link symmetry"). -/
def LinkSym (m : Mem) : Prop :=
  ∀ i j, getLinkId m i = some j → getLinkId m j = some i

/-- Executable check of `LinkSym` on a concrete heap. -/
def linkSymB (m : Mem) : Bool :=
  m.all (fun p => match p.2.link with
    | none => true
    | some j => getLinkId m j == some p.1)

/-- Copy the swappable/transferable payload of a token: string, kind,
flags and the impl state (varId, value list, original name).  Pointers
(`link`, `nprev`, `nnext`) are left alone. -/
def copyPayload (dst src : TokNode) : TokNode :=
  { dst with str := src.str, tokType := src.tokType, flags := src.flags, varId := src.varId, values := src.values, origName := src.origName }

namespace Token

/-- One iteration of the `Token::deleteNext` loop body (token.cpp lines
225-234): sever the doomed token's bracket peer when it points back (the
#8154 guard), advance `mNext` past it, and destroy it. -/
def delNextStep (m : Mem) (self n : Nat) : Mem :=
  let m1 := match getLinkId m n with
    | some j => if getLinkId m j = some n then setLinkF m j none else m
    | none => m
  let m2 := setNextF m1 self (getNextId m1 n)
  mdel m2 n

/-- The `while (mNext && count > 0)` loop of `Token::deleteNext`. -/
def deleteNextLoop : Nat → Mem → Nat → Mem
  | 0, m, _ => m
  | c + 1, m, self =>
    match getNextId m self with
    | none => m
    | some n => deleteNextLoop c (delNextStep m self n) self

/-- `Token::deleteNext` (token.cpp lines 223-241). -/
def deleteNext (s : TStream) (self : Nat) (count : Nat) : TStream :=
  let m := deleteNextLoop count s.mem self
  match getNextId m self with
  | some nx => { s with mem := setPrevF m nx (some self) }
  | none => { s with mem := m, back := self }

/-- One iteration of the `Token::deletePrevious` loop body (token.cpp
lines 245-254). -/
def delPrevStep (m : Mem) (self p : Nat) : Mem :=
  let m1 := match getLinkId m p with
    | some j => if getLinkId m j = some p then setLinkF m j none else m
    | none => m
  let m2 := setPrevF m1 self (getPrevId m1 p)
  mdel m2 p

/-- The `while (mPrevious && count > 0)` loop of `Token::deletePrevious`. -/
def deletePreviousLoop : Nat → Mem → Nat → Mem
  | 0, m, _ => m
  | c + 1, m, self =>
    match getPrevId m self with
    | none => m
    | some p => deletePreviousLoop c (delPrevStep m self p) self

/-- `Token::deletePrevious` (token.cpp lines 243-261). -/
def deletePrevious (s : TStream) (self : Nat) (count : Nat) : TStream :=
  let m := deletePreviousLoop count s.mem self
  match getPrevId m self with
  | some pv => { s with mem := setNextF m pv (some self) }
  | none => { s with mem := m, front := self }

/-- `Token::swapWithNext` (token.cpp lines 263-283): swap the payload
(string, kind, flags, impl) with the successor, repoint both bracket
peers, then swap the `mLink` fields themselves.  (The
template-simplifier back-pointer fixups touch external symbol-database
objects outside the model.) -/
def swapWithNext (m : Mem) (i : Nat) : Mem :=
  match mget m i with
  | none => m
  | some t =>
    match t.nnext with
    | none => m
    | some n =>
      match mget m n with
      | none => m
      | some u =>
        let m0 := updTok (updTok m i (fun a => copyPayload a u)) n (fun b => copyPayload b t)
        let m1 := match getLinkId m0 n with
          | some d => setLinkF m0 d (some i)
          | none => m0
        let m2 := match getLinkId m1 i with
          | some c => setLinkF m1 c (some n)
          | none => m1
        let li := getLinkId m2 i
        let ln := getLinkId m2 n
        setLinkF (setLinkF m2 i ln) n li

/-- `Token::takeData` (token.cpp lines 285-299): copy the source token's
string, kind and flags, transfer its impl (varId, value list, original
name), take over its bracket link and rewire that peer to `self`. -/
def takeData (m : Mem) (i src : Nat) : Mem :=
  match mget m i, mget m src with
  | some t, some s =>
    let m0 := updTok m i (fun _ => { copyPayload t s with link := s.link })
    (match s.link with
     | some j => setLinkF m0 j (some i)
     | none => m0)
  | _, _ => m

/-- The `str("")` fallback of `deleteThis` (token.cpp lines 315-319). -/
def blankThis (s : TStream) (i : Nat) : TStream :=
  { s with mem := updTok s.mem i (fun t => strAssign t []) }

/-- `Token::deleteThis` (token.cpp lines 301-320). -/
def deleteThis (s : TStream) (i : Nat) : TStream :=
  match mget s.mem i with
  | none => s
  | some t =>
    match t.nnext with
    | some n =>
      let m1 := takeData s.mem i n
      let m2 := setLinkF m1 n none
      deleteNext { s with mem := m2 } i 1
    | none =>
      match t.nprev with
      | some p =>
        match (mget s.mem p).bind (fun q => q.nprev) with
        | some pp =>
          let m1 := takeData s.mem i p
          let m2 := setPrevF m1 i (some pp)
          let m3 := setNextF m2 pp (some i)
          { s with mem := mdel m3 p }
        | none => blankThis s i
      | none => blankThis s i

/-- A fresh token id: one above every live id. -/
def freshId (m : Mem) : Nat := (m.map (fun p => p.1)).foldr Nat.max 0 + 1

/-- A default-constructed `Token` (token.cpp lines 55-64): null pointers,
kind `eNone`, zero flags, fresh impl. -/
def emptyTok : TokNode := {}

/-- `Token::insertToken` (token.cpp lines 970-1006): reuse an
empty-string receiver, otherwise allocate a fresh token, classify its
string, and splice it before/after the receiver, updating the anchor
when an edge is touched. -/
def insertToken (s : TStream) (i : Nat) (tokenStr origNameStr : Str) (prepend : Bool) : TStream :=
  match mget s.mem i with
  | none => s
  | some t =>
    if t.str = [] then
      { s with mem := updTok s.mem i (fun t0 =>
          let t1 := strAssign t0 tokenStr
          if origNameStr ≠ [] then { t1 with origName := origNameStr } else t1) }
    else
      let f := freshId s.mem
      let node0 := strAssign emptyTok tokenStr
      let node := if origNameStr ≠ [] then { node0 with origName := origNameStr } else node0
      let m0 : Mem := (f, node) :: s.mem
      if prepend then
        match t.nprev with
        | some pv =>
          let m1 := setPrevF m0 f (some pv)
          let m2 := setNextF m1 pv (some f)
          let m3 := setPrevF m2 i (some f)
          let m4 := setNextF m3 f (some i)
          { s with mem := m4 }
        | none =>
          let m3 := setPrevF m0 i (some f)
          let m4 := setNextF m3 f (some i)
          { s with mem := m4, front := f }
      else
        match t.nnext with
        | some nx =>
          let m1 := setNextF m0 f (some nx)
          let m2 := setPrevF m1 nx (some f)
          let m3 := setNextF m2 i (some f)
          let m4 := setPrevF m3 f (some i)
          { s with mem := m4 }
        | none =>
          let m3 := setNextF m0 i (some f)
          let m4 := setPrevF m3 f (some i)
          { s with mem := m4, back := f }

/-- `Token::createMutualLinks` (token.cpp lines 1018-1025); the asserts
(`begin`, `end` non-null and distinct) become theorem hypotheses. -/
def createMutualLinks (m : Mem) (a b : Nat) : Mem :=
  setLinkF (setLinkF m a (some b)) b (some a)

end Token

/-! ## Pattern engine (token.cpp lines 384-714), bracket scan, accessors -/

/-- Modelled from the spec: token.h classification accessor (`isName`);
per §4.2 rule 4 and §4.3 the Name class covers identifier-like kinds. -/
def TokNode.isName (t : TokNode) : Bool :=
  t.tokType == TokType.eName || t.tokType == TokType.eType ||
  t.tokType == TokType.eVariable || t.tokType == TokType.eFunction ||
  t.tokType == TokType.eKeyword || t.tokType == TokType.eBoolean

/-- Modelled from the spec: token.h accessor (`isKeyword`). -/
def TokNode.isKeyword (t : TokNode) : Bool := t.tokType == TokType.eKeyword

/-- Modelled from the spec: token.h accessor (`isArithmeticalOp`). -/
def TokNode.isArithmeticalOp (t : TokNode) : Bool := t.tokType == TokType.eArithmeticalOp

/-- Modelled from the spec: token.h accessor (`isAssignmentOp`). -/
def TokNode.isAssignmentOp (t : TokNode) : Bool := t.tokType == TokType.eAssignmentOp

/-- Modelled from the spec: token.h accessor (`isComparisonOp`). -/
def TokNode.isComparisonOp (t : TokNode) : Bool := t.tokType == TokType.eComparisonOp

/-- Modelled from the spec: token.h accessor (`isConstOp`, the `%cop%`
class: arithmetic, logical, comparison and bit operators). -/
def TokNode.isConstOp (t : TokNode) : Bool :=
  t.isArithmeticalOp || t.tokType == TokType.eLogicalOp ||
  t.tokType == TokType.eComparisonOp || t.tokType == TokType.eBitOp

/-- Modelled from the spec: token.h accessor (`isOp`, the `%op%` class:
any operator). -/
def TokNode.isOp (t : TokNode) : Bool :=
  t.isConstOp || t.isAssignmentOp || t.tokType == TokType.eIncDecOp

/-- Modelled from the spec: token.h accessor (`isNumber`). -/
def TokNode.isNumber (t : TokNode) : Bool := t.tokType == TokType.eNumber

/-- Modelled from the spec: token.h accessor (`isBoolean`). -/
def TokNode.isBoolean (t : TokNode) : Bool := t.tokType == TokType.eBoolean

namespace Token

/-- `Token::firstWordEquals` (token.cpp lines 601-614). -/
def firstWordEquals : Str → Str → Bool
  | [], [] => true
  | [], _ :: _ => false
  | c :: _, [] => c == ' '
  | c :: s2, d :: w2 => if c == d then firstWordEquals s2 w2 else false

/-- `Token::chrInFirstWord` (token.cpp lines 616-627), used as a
boolean. -/
def chrInFirstWord : Str → Char → Bool
  | [], _ => false
  | d :: r, c => if d == ' ' then false else if d == c then true else chrInFirstWord r c

/-- The scanning loop of the `[...]` branch of `Token::Match` (token.cpp
lines 656-670): walk the word counting `]` until the token's character is
found. -/
def classScan : Str → Char → Nat → Bool × Nat
  | [], _, cnt => (false, cnt)
  | c :: r, ch, cnt =>
    if c == ' ' then (false, cnt)
    else if c == ']' then classScan r ch (cnt + 1)
    else if c == ch then (true, cnt)
    else classScan r ch cnt

/-- The common tail of `multiComparePercent` (token.cpp lines 516-521):
`none` stands for the 0xFFFF "try the next alternative" result. -/
def mcpTail (h2 : Str) : Option Int × Str :=
  if at0 h2 0 == '|' then (none, h2.drop 1) else (some (-1), h2)

/-- `multiComparePercent` (token.cpp lines 384-522): dispatch on the
character after `%`, consume the meta-token, and either report a match
(`some 1`), report certain failure (`some (-1)`), pass to the next
alternative (`none`), or throw (`%varid%` with varid 0, unknown
command). -/
def multiComparePercent (t : TokNode) (h : Str) (varid : Nat) : Except Unit (Option Int × Str) :=
  let h1 := h.drop 1
  let c0 := at0 h1 0
  if c0 == nulChar || c0 == ' ' || c0 == '|' then
    let h2 := h1.drop 1
    if t.isArithmeticalOp && t.str == ("%".toList) then Except.ok (some 1, h2)
    else Except.ok (mcpTail h2)
  else if c0 == 'v' then
    (if at0 h1 3 == '%' then
      let h2 := h1.drop 4
      if t.varId != 0 then Except.ok (some 1, h2) else Except.ok (mcpTail h2)
    else
      if varid = 0 then Except.error ()
      else
        let h2 := h1.drop 6
        if t.varId == varid then Except.ok (some 1, h2) else Except.ok (mcpTail h2))
  else if c0 == 't' then
    let h2 := h1.drop 5
    if t.isName && t.varId == 0 && !t.isKeyword then Except.ok (some 1, h2)
    else Except.ok (mcpTail h2)
  else if c0 == 'a' then
    (if at0 h1 3 == '%' then Except.ok (some 1, h1.drop 4)
     else
       let h2 := h1.drop 7
       if t.isAssignmentOp then Except.ok (some 1, h2) else Except.ok (mcpTail h2))
  else if c0 == 'n' then
    (if at0 h1 4 == '%' then
       let h2 := h1.drop 5
       if t.isName then Except.ok (some 1, h2) else Except.ok (mcpTail h2)
     else
       let h2 := h1.drop 4
       if t.isNumber then Except.ok (some 1, h2) else Except.ok (mcpTail h2))
  else if c0 == 'c' then
    let hc := h1.drop 1
    (if at0 hc 0 == 'h' then
       let h2 := hc.drop 4
       if t.tokType == TokType.eChar then Except.ok (some 1, h2) else Except.ok (mcpTail h2)
     else if at0 hc 1 == 'p' then
       let h2 := hc.drop 3
       if t.isConstOp then Except.ok (some 1, h2) else Except.ok (mcpTail h2)
     else
       let h2 := hc.drop 4
       if t.isComparisonOp then Except.ok (some 1, h2) else Except.ok (mcpTail h2))
  else if c0 == 's' then
    let h2 := h1.drop 4
    if t.tokType == TokType.eString then Except.ok (some 1, h2) else Except.ok (mcpTail h2)
  else if c0 == 'b' then
    let h2 := h1.drop 5
    if t.isBoolean then Except.ok (some 1, h2) else Except.ok (mcpTail h2)
  else if c0 == 'o' then
    let ho := h1.drop 1
    (if at0 ho 1 == '%' then
       (if at0 ho 0 == 'p' then
          let h2 := ho.drop 2
          if t.isOp then Except.ok (some 1, h2) else Except.ok (mcpTail h2)
        else
          let h2 := ho.drop 2
          if t.tokType == TokType.eBitOp && t.str == ("|".toList) then Except.ok (some 1, h2)
          else Except.ok (mcpTail h2))
     else
       let h2 := ho.drop 4
       if t.tokType == TokType.eLogicalOp && t.str == ("||".toList) then Except.ok (some 1, h2)
       else Except.ok (mcpTail h2))
  else Except.error ()

/-- `Token::multiCompare` (token.cpp lines 524-572).  `needle` is the
token's string, `nd` the current needle position (the C++
`needlePointer`; pointer equality with `needle` is value equality of the
remaining suffix).  Structural fuel stands in for the C++ `for (;;)`;
every iteration strictly consumes haystack, so `haystack.length + 1`
fuel is exact. -/
def multiCompare (t : TokNode) (needle : Str) (varid : Nat) : Nat → Str → Str → Except Unit Int
  | 0, _, _ => Except.ok (-1)
  | fu + 1, nd, h =>
    if nd == needle && at0 h 0 == '%' && !(at0 h 1 == '|') && !(at0 h 1 == nulChar) && !(at0 h 1 == ' ') then
      match multiComparePercent t h varid with
      | Except.error e => Except.error e
      | Except.ok (some r, _) => Except.ok r
      | Except.ok (none, h2) => multiCompare t needle varid fu nd h2
    else if at0 h 0 == '|' then
      (if nd.isEmpty then Except.ok 1
       else multiCompare t needle varid fu needle (h.drop 1))
    else if at0 nd 0 == at0 h 0 then
      (if at0 nd 0 == nulChar then Except.ok 1
       else multiCompare t needle varid fu (nd.drop 1) (h.drop 1))
    else if at0 h 0 == ' ' || at0 h 0 == nulChar then
      (if nd == needle then Except.ok 0
       else if at0 nd 0 == nulChar then Except.ok 1 else Except.ok (-1))
    else
      let h2 := (h.drop 1).dropWhile (fun c => !(c == ' ') && !(c == '|'))
      if at0 h2 0 == ' ' || at0 h2 0 == nulChar then Except.ok (-1)
      else multiCompare t needle varid fu needle (h2.drop 1)

/-- The body of `Token::Match` (token.cpp lines 629-714) with structural
fuel for the outer `while (*p)` loop; every iteration strictly consumes
pattern, so `p.length + 1` fuel is exact. -/
def MatchF (m : Mem) (varid : Nat) : Nat → Option Nat → Str → Except Unit Bool
  | 0, _, _ => Except.ok true
  | fu + 1, tok, p =>
    let p1 := p.dropWhile (fun c => c == ' ')
    if p1.isEmpty then Except.ok true
    else
      match tok.bind (mget m) with
      | none =>
        if at0 p1 0 == '!' && at0 p1 1 == '!' && !(at0 p1 2 == nulChar) then
          MatchF m varid fu tok (p1.dropWhile (fun c => !(c == ' ')))
        else Except.ok false
      | some t =>
        if at0 p1 0 == '[' && chrInFirstWord p1 ']' then
          (if !(t.str.length == 1) then Except.ok false
           else
             let scan := classScan (p1.drop 1) (at0 t.str 0) 0
             let chrFound := scan.1 || (decide (scan.2 > 1) && at0 t.str 0 == ']')
             if !chrFound then Except.ok false
             else MatchF m varid fu t.nnext (p1.dropWhile (fun c => !(c == ' '))))
        else if at0 p1 0 == '!' && at0 p1 1 == '!' && !(at0 p1 2 == nulChar) then
          (if firstWordEquals (p1.drop 2) t.str then Except.ok false
           else MatchF m varid fu t.nnext (p1.dropWhile (fun c => !(c == ' '))))
        else
          match multiCompare t t.str varid (p1.length + 1) t.str p1 with
          | Except.error e => Except.error e
          | Except.ok r =>
            if r == 0 then MatchF m varid fu tok (p1.dropWhile (fun c => !(c == ' ')))
            else if r == -1 then Except.ok false
            else MatchF m varid fu t.nnext (p1.dropWhile (fun c => !(c == ' ')))

/-- `Token::Match` (token.cpp lines 629-714). -/
def Match (m : Mem) (tok : Option Nat) (p : Str) (varid : Nat) : Except Unit Bool :=
  MatchF m varid (p.length + 1) tok p

/-- `Token::findmatch` (token.cpp lines 940-947); `fuel` bounds the walk
down the stream (the C++ loop assumes an acyclic stream). -/
def findmatch (m : Mem) : Nat → Option Nat → Str → Nat → Except Unit (Option Nat)
  | 0, _, _, _ => Except.ok none
  | fu + 1, tok, p, varid =>
    match tok with
    | none => Except.ok none
    | some i =>
      match Match m (some i) p varid with
      | Except.error e => Except.error e
      | Except.ok true => Except.ok (some i)
      | Except.ok false => findmatch m fu (getNextId m i) p varid

/-- Reduce modulo 2^32 (C++ `unsigned int`). -/
def u32 (n : Nat) : Nat := n % 4294967296

/-- The scan loop of `Token::findClosingBracket` (token.cpp lines
857-879); `depth` is the C++ `unsigned int` (pre-decrement on zero
wraps), `fuel` bounds the walk (the C++ loop assumes forward links). -/
def fcbLoop (m : Mem) : Nat → Option Nat → Nat → Except Unit (Option Nat)
  | 0, _, _ => Except.ok none
  | _ + 1, none, _ => Except.ok none
  | fu + 1, some c, depth =>
    match mget m c with
    | none => Except.ok none
    | some t =>
      match Match m (some c) ("\x7b|[|(".toList) 0 with
      | Except.error e => Except.error e
      | Except.ok true =>
        (match t.link with
         | none => Except.ok none
         | some l => fcbLoop m fu (getNextId m l) depth)
      | Except.ok false =>
        match Match m (some c) ("\x7d|]|)|;".toList) 0 with
        | Except.error e => Except.error e
        | Except.ok true => Except.ok none
        | Except.ok false =>
          if t.str == ("<".toList) then fcbLoop m fu (getNextId m c) (u32 (depth + 1))
          else if t.str == (">".toList) then
            (if u32 (depth + 4294967295) = 0 then Except.ok (some c)
             else fcbLoop m fu (getNextId m c) (u32 (depth + 4294967295)))
          else if t.str == (">>".toList) then
            (if depth ≤ 2 then Except.ok (some c)
             else fcbLoop m fu (getNextId m c) (depth - 2))
          else fcbLoop m fu (getNextId m c) depth

/-- `Token::findClosingBracket` (token.cpp lines 852-880). -/
def findClosingBracket (m : Mem) (fuel : Nat) (i : Nat) : Except Unit (Option Nat) :=
  match mget m i with
  | none => Except.ok none
  | some t =>
    if t.str != ("<".toList) then Except.ok none
    else fcbLoop m fuel (some i) 0

/-- The forward walk of `Token::tokAt` (the `while (index > 0 && tok)`
loop). -/
def walkNext (m : Mem) : Option Nat → Nat → Option Nat
  | t, 0 => t
  | none, _ + 1 => none
  | some i, k + 1 => walkNext m (getNextId m i) k

/-- The backward walk of `Token::tokAt` (the `while (index < 0 && tok)`
loop). -/
def walkPrev (m : Mem) : Option Nat → Nat → Option Nat
  | t, 0 => t
  | none, _ + 1 => none
  | some i, k + 1 => walkPrev m (getPrevId m i) k

/-- `Token::tokAt` (token.cpp lines 355-367). -/
def tokAt (m : Mem) (i : Nat) (index : Int) : Option Nat :=
  if 0 ≤ index then walkNext m (some i) index.toNat
  else walkPrev m (some i) (-index).toNat

/-- `Token::strAt` (token.cpp lines 378-382): the empty string when
`tokAt` walked off the stream. -/
def strAt (m : Mem) (i : Nat) (index : Int) : Str :=
  match (tokAt m i index).bind (mget m) with
  | some t => t.str
  | none => []

/-- `Token::linkAt` (token.cpp lines 369-376): throws `InternalError`
when `tokAt` walked off the stream. -/
def linkAt (m : Mem) (i : Nat) (index : Int) : Except Unit (Option Nat) :=
  match tokAt m i index with
  | none => Except.error ()
  | some j => Except.ok (getLinkId m j)

end Token

/-! ## Concrete instances used by witnesses and counterexamples -/

/-- Decidable equality for `Except` results. -/
instance {ε α : Type} [DecidableEq ε] [DecidableEq α] : DecidableEq (Except ε α) := fun a b =>
  match a, b with
  | Except.error x, Except.error y =>
    if h : x = y then isTrue (by rw [h]) else isFalse (fun c => h (by injection c))
  | Except.ok x, Except.ok y =>
    if h : x = y then isTrue (by rw [h]) else isFalse (fun c => h (by injection c))
  | Except.error _, Except.ok _ => isFalse (fun c => Except.noConfusion c)
  | Except.ok _, Except.error _ => isFalse (fun c => Except.noConfusion c)

/-- A string oracle for value examples: every token reads as "". -/
def strOfEmpty : Nat → Str := fun _ => []

/-- A chain token for example streams. -/
def chainTok (s : Str) (pv nx : Option Nat) : TokNode := { str := s, nprev := pv, nnext := nx }

/-- The stream `( x )` with the brackets mutually linked. -/
def exPar : TStream :=
  { mem := [(0, { str := ("(".toList), tokType := TokType.eBracket, link := some 2, nnext := some 1 }),
            (1, { str := ("x".toList), tokType := TokType.eName, nprev := some 0, nnext := some 2 }),
            (2, { str := (")".toList), tokType := TokType.eBracket, link := some 0, nprev := some 1 })],
    front := 0, back := 2 }

/-- The two-token stream `a b`. -/
def exTwo : TStream :=
  { mem := [(0, chainTok ("a".toList) none (some 1)), (1, chainTok ("b".toList) (some 0) none)],
    front := 0, back := 1 }

/-- The stream `A < B < C >> D` (no `{[(` links involved). -/
def exTmpl : Mem :=
  [(0, chainTok ("A".toList) none (some 1)),
   (1, chainTok ("<".toList) (some 0) (some 2)),
   (2, chainTok ("B".toList) (some 1) (some 3)),
   (3, chainTok ("<".toList) (some 2) (some 4)),
   (4, chainTok ("C".toList) (some 3) (some 5)),
   (5, chainTok (">>".toList) (some 4) (some 6)),
   (6, chainTok ("D".toList) (some 5) none)]

/-- The stream `< )`. -/
def exLtClose : Mem :=
  [(0, chainTok ("<".toList) none (some 1)), (1, chainTok (")".toList) (some 0) none)]

/-- A token whose lexeme is the two characters `L"`. -/
def tokLquote : TokNode := { str := ("L\"".toList) }

/-- A Known Int 5 value. -/
def intKnown5 : Value := { intvalue := 5, valueKind := ValueKind.Known }

/-- A Possible Int 5 value. -/
def intPossible5 : Value := { intvalue := 5 }

/-- A Possible Int 100 value. -/
def intPossible100 : Value := { intvalue := 100 }

/-- Ten pairwise distinct Possible Int values. -/
def tenInts : List Value := (List.range 10).map (fun k => { intvalue := (k : Int) })

/-- A default Int value. -/
def vLifeA : Value := {}

/-- The same value except for `lifetimeKind`. -/
def vLifeB : Value := { lifetimeKind := LifetimeKind.Lambda }

/-- A token with lexeme `bar`. -/
def tokBar : TokNode := { str := ("bar".toList) }

/-- A token with lexeme `foo`. -/
def tokFoo : TokNode := { str := ("foo".toList) }

/-- The stream `bar foo`. -/
def exBarFoo : Mem := [(0, { tokBar with nnext := some 1 }), (1, { tokFoo with nprev := some 0 })]

/-- The stream `< ( x ) >` with the parentheses mutually linked. -/
def exLtParen : Mem :=
  [(0, chainTok ("<".toList) none (some 1)),
   (1, { str := ("(".toList), nprev := some 0, nnext := some 2, link := some 3 }),
   (2, chainTok ("x".toList) (some 1) (some 3)),
   (3, { str := (")".toList), nprev := some 2, nnext := some 4, link := some 1 }),
   (4, chainTok (">".toList) (some 3) none)]


/-- The first two steps of `Token::update_property_info` (token.cpp lines
85-92): refresh the `isControlFlowKeyword` flag and recompute the token
kind from the current lexeme. -/
def clsStep (t : TokNode) : TokNode :=
  { t with flags := { t.flags with isControlFlowKeyword := controlFlowKeywords.contains t.str },
           tokType := classifyStr t.str t.varId t.link.isSome t.tokType }

/-! ## Theorems -/

/-- The float comparison of `operator==` is rational equality. -/
theorem floatEqAux (x y : ℚ) : (!(decide (x > y) || decide (x < y))) = true ↔ x = y := by
  rw [Bool.not_eq_true', Bool.or_eq_false_iff]
  simp only [decide_eq_false_iff_not, not_lt]
  constructor
  · rintro ⟨h1, h2⟩; exact le_antisymm h1 h2
  · rintro rfl; exact ⟨le_refl x, le_refl x⟩

/-- Claim C9 (amended). -/
theorem C9_valueEq_spec (a b : Value) :
    valueEq a b = true ↔
      (a.valueType = b.valueType ∧
       (match a.valueType with
        | ValueType.INT => a.intvalue = b.intvalue
        | ValueType.TOK => a.tokvalue = b.tokvalue
        | ValueType.FLOAT => a.floatValue = b.floatValue
        | ValueType.MOVED => a.moveKind = b.moveKind
        | ValueType.UNINIT => True
        | ValueType.BUFFER_SIZE => a.intvalue = b.intvalue
        | ValueType.CONTAINER_SIZE => a.intvalue = b.intvalue
        | ValueType.LIFETIME => a.tokvalue = b.tokvalue) ∧
       a.varvalue = b.varvalue ∧ a.condition = b.condition ∧ a.varId = b.varId ∧
       a.conditional = b.conditional ∧ a.defaultArg = b.defaultArg ∧
       a.valueKind = b.valueKind) := by
  by_cases hT : a.valueType = b.valueType
  · unfold valueEq
    rw [if_neg (by simp [bne_iff_ne, hT])]
    cases h : a.valueType <;>
      (rw [h] at hT;
       simp only [h, ← hT, Bool.and_eq_true, beq_iff_eq, floatEqAux, true_and, and_assoc])
  · unfold valueEq
    have hb : (a.valueType != b.valueType) = true := by simpa [bne_iff_ne] using hT
    simp [hb, hT]

/-- Claim C9 (counterexample): two values that agree everywhere except in
`lifetimeKind` still compare equal under `operator==`, so equality does
not compare every metadata field as claimed. -/
theorem C9_counterexample :
    valueEq vLifeA vLifeB = true ∧ ¬(vLifeA.lifetimeKind = vLifeB.lifetimeKind) := by decide

/-- Claim C10: `tokAt` yields null once a walk steps past either end of
the stream, and on every such index `strAt` yields the empty string while
`linkAt` throws `InternalError`. -/
theorem C10_strAt_total :
    (∀ (m : Mem) (i : Nat), getNextId m i = none → ∀ k : Int, 1 ≤ k → Token.tokAt m i k = none) ∧
    (∀ (m : Mem) (i : Nat), getPrevId m i = none → ∀ k : Int, k ≤ -1 → Token.tokAt m i k = none) ∧
    (∀ (m : Mem) (i : Nat) (k : Int), Token.tokAt m i k = none →
      Token.strAt m i k = [] ∧ Token.linkAt m i k = Except.error ()) := by
  have hwn : ∀ (m : Mem) (n : Nat), Token.walkNext m none n = none := by
    intro m n; cases n <;> rfl
  have hwp : ∀ (m : Mem) (n : Nat), Token.walkPrev m none n = none := by
    intro m n; cases n <;> rfl
  refine ⟨?_, ?_, ?_⟩
  · intro m i h k hk
    unfold Token.tokAt
    rw [if_pos (by omega)]
    obtain ⟨n, hn⟩ : ∃ n, k.toNat = n + 1 := ⟨k.toNat - 1, by omega⟩
    rw [hn]
    show Token.walkNext m (getNextId m i) n = none
    rw [h]; exact hwn m n
  · intro m i h k hk
    unfold Token.tokAt
    rw [if_neg (by omega)]
    obtain ⟨n, hn⟩ : ∃ n, (-k).toNat = n + 1 := ⟨(-k).toNat - 1, by omega⟩
    rw [hn]
    show Token.walkPrev m (getPrevId m i) n = none
    rw [h]; exact hwp m n
  · intro m i k h
    unfold Token.strAt Token.linkAt
    rw [h]
    exact ⟨rfl, rfl⟩

/-- Witness for C10 at a concrete stream and indices past both ends. -/
theorem C10_strAt_total_witness :
    Token.tokAt exTwo.mem 1 2 = none ∧ Token.strAt exTwo.mem 1 2 = [] ∧
    Token.linkAt exTwo.mem 1 2 = Except.error () ∧
    Token.tokAt exTwo.mem 0 (-3) = none ∧ Token.strAt exTwo.mem 0 (-3) = [] ∧
    Token.linkAt exTwo.mem 0 (-3) = Except.error () := by
  have h1 := C10_strAt_total.1 exTwo.mem 1 (by decide) 2 (by decide)
  have h2 := C10_strAt_total.2.2 exTwo.mem 1 2 h1
  have h3 := C10_strAt_total.2.1 exTwo.mem 0 (by decide) (-3) (by decide)
  have h4 := C10_strAt_total.2.2 exTwo.mem 0 (-3) h3
  exact ⟨h1, h2.1, h2.2, h3, h4.1, h4.2⟩

/-- `fillVarId` only touches `varId`. -/
theorem fillVarId_valueKind (vid : Nat) (v : Value) : (fillVarId vid v).valueKind = v.valueKind := by
  unfold fillVarId; split <;> rfl

/-- `fillVarId` only touches `varId`. -/
theorem fillVarId_valueType (vid : Nat) (v : Value) : (fillVarId vid v).valueType = v.valueType := by
  unfold fillVarId; split <;> rfl

/-- `fillVarId` only touches `varId`. -/
theorem fillVarId_intvalue (vid : Nat) (v : Value) : (fillVarId vid v).intvalue = v.intvalue := by
  unfold fillVarId; split <;> rfl

/-- `fillVarId` only touches `varId`. -/
theorem fillVarId_tokvalue (vid : Nat) (v : Value) : (fillVarId vid v).tokvalue = v.tokvalue := by
  unfold fillVarId; split <;> rfl

/-- `fillVarId` preserves Known. -/
theorem fillVarId_isKnown (vid : Nat) (v : Value) : (fillVarId vid v).isKnown = v.isKnown := by
  simp [Value.isKnown, fillVarId_valueKind]

/-- `fillVarId` preserves Inconclusive. -/
theorem fillVarId_isInconclusive (vid : Nat) (v : Value) :
    (fillVarId vid v).isInconclusive = v.isInconclusive := by
  simp [Value.isInconclusive, fillVarId_valueKind]

/-- The filled copy of `v` matches `v` in the dedup scan. -/
theorem dupMatch_fillVarId_self (strOf : Nat → Str) (vid : Nat) (v : Value) :
    dupMatch strOf (fillVarId vid v) v = true := by
  unfold dupMatch
  rw [fillVarId_intvalue, fillVarId_valueType, fillVarId_tokvalue]
  simp

/-- A list in which nothing matches makes the dedup scan miss. -/
theorem dedupLoop_none (strOf : Nat → Str) (vid : Nat) (v : Value) :
    ∀ l : List Value, (∀ it ∈ l, dupMatch strOf it v = false) →
      dedupLoop strOf vid v l = none := by
  intro l h
  induction l with
  | nil => rfl
  | cons it rest ih =>
      unfold dedupLoop
      rw [h it (by simp), ih (fun x hx => h x (by simp [hx]))]
      simp

/-- A value of a different `valueType` never matches in the dedup scan. -/
theorem dupMatch_false_of_type (strOf : Nat → Str) (it v : Value)
    (h : (it.valueType == v.valueType) = false) : dupMatch strOf it v = false := by
  unfold dupMatch
  have h2 : (it.valueType != v.valueType) = true := by rw [bne, h]; rfl
  by_cases h1 : (it.intvalue != v.intvalue) = true
  · rw [if_pos h1]
  · rw [if_neg h1, if_pos h2]

/-- Claim C5 (amended): for a non-Known value that matches no existing
entry, `addValue` succeeds exactly when the list holds at most 9 entries
(the code refuses at `size() >= 10`), appending the varId-filled value at
the back; at 10 or more entries it refuses and leaves the list unchanged. -/
theorem C5_capacity (strOf : Nat → Str) (vid : Nat) (l : List Value) (v : Value)
    (hk : v.isKnown = false)
    (hd : ∀ it ∈ l, dupMatch strOf it v = false) :
    addValue strOf vid (some l) v =
      (decide (l.length < 10),
       if l.length < 10 then some (l ++ [fillVarId vid v]) else some l) := by
  unfold addValue
  simp only [hk, Bool.false_eq_true, if_false]
  by_cases hc : l.length ≥ 10
  · rw [if_pos hc, if_neg (by omega)]
    simp [show ¬(l.length < 10) by omega]
  · rw [if_neg hc, dedupLoop_none strOf vid v l hd]
    simp only [fillVarId_isKnown, hk, Bool.false_and, Bool.false_eq_true, if_false]
    simp [show l.length < 10 by omega]

/-- Witness for C5 (amended) at a one-entry list. -/
theorem C5_capacity_witness :
    addValue strOfEmpty 3 (some [intKnown5]) intPossible100 =
      (decide ([intKnown5].length < 10),
       if [intKnown5].length < 10 then some ([intKnown5] ++ [fillVarId 3 intPossible100])
       else some [intKnown5]) :=
  C5_capacity strOfEmpty 3 [intKnown5] intPossible100 (by decide) (by decide)

/-- Claim C5 (counterexample): a value list holding exactly 10 entries —
which does not exceed 10 — still refuses a fresh non-duplicate value,
because the code checks `size() >= 10`. -/
theorem C5_counterexample :
    tenInts.length = 10 ∧
    tenInts.all (fun it => !(dupMatch strOfEmpty it intPossible100)) = true ∧
    intPossible100.isKnown = false ∧
    addValue strOfEmpty 7 (some tenInts) intPossible100 = (false, some tenInts) := by decide

/-- Claim C2: adding a Known value first purges every value of the same
`value_type`, so afterwards every value of that type in the list is the
newly added one (varId filled from the token); in particular this holds
for a Known Int value. -/
theorem C2_addValue_known (strOf : Nat → Str) (vid : Nat) (vals : Option (List Value)) (v : Value)
    (hk : v.isKnown = true) :
    ((addValue strOf vid vals v).2.getD []).all
      (fun x => !(x.valueType == v.valueType) || x == fillVarId vid v) = true := by
  unfold addValue
  cases vals with
  | none => simp
  | some l =>
    simp only [hk, if_true]
    have hmem : ∀ x ∈ l.filter (fun x => !(x.valueType == v.valueType)),
        (x.valueType == v.valueType) = false := by
      intro x hx
      have := List.of_mem_filter hx
      simpa using this
    by_cases hc : (l.filter (fun x => !(x.valueType == v.valueType))).length ≥ 10
    · rw [if_pos hc]
      simp only [Option.getD_some]
      rw [List.all_eq_true]
      intro x hx
      simp [hmem x hx]
    · rw [if_neg hc,
        dedupLoop_none strOf vid v _ (fun it hit => dupMatch_false_of_type strOf it v (hmem it hit))]
      by_cases hf : ((fillVarId vid v).isKnown && (fillVarId vid v).isIntValue) = true
      · rw [if_pos hf]
        simp only [Option.getD_some]
        rw [List.all_eq_true]
        intro x hx
        rcases List.mem_cons.mp hx with h | h
        · simp [h]
        · simp [hmem x h]
      · rw [if_neg hf]
        simp only [Option.getD_some]
        rw [List.all_eq_true]
        intro x hx
        rcases List.mem_append.mp hx with h | h
        · simp [hmem x h]
        · rcases List.mem_singleton.mp h with rfl
          simp

/-- Witness for C2: a Known Int added over a Possible Int list. -/
theorem C2_addValue_known_witness :
    ((addValue strOfEmpty 4 (some [intPossible100]) intKnown5).2.getD []).all
      (fun x => !(x.valueType == intKnown5.valueType) || x == fillVarId 4 intKnown5) = true :=
  C2_addValue_known strOfEmpty 4 (some [intPossible100]) intKnown5 (by decide)

/-- The dedup scan preserves the list length. -/
theorem dedupLoop_length (strOf : Nat → Str) (vid : Nat) (v : Value) :
    ∀ (l : List Value) (b : Bool) (l2 : List Value),
      dedupLoop strOf vid v l = some (b, l2) → l2.length = l.length := by
  intro l
  induction l with
  | nil => intro b l2 h; simp [dedupLoop] at h
  | cons it rest ih =>
    intro b l2 h
    unfold dedupLoop at h
    by_cases hd : dupMatch strOf it v = true
    · rw [if_pos hd] at h
      by_cases hi : (it.isInconclusive && !v.isInconclusive) = true
      · rw [if_pos hi] at h
        cases h
        simp
      · rw [if_neg hi] at h
        cases h
        simp
    · rw [if_neg hd] at h
      cases hr : dedupLoop strOf vid v rest with
      | none => rw [hr] at h; cases h
      | some pr =>
        obtain ⟨b2, l3⟩ := pr
        rw [hr] at h
        cases h
        simp [ih _ _ hr]

/-- Re-scanning the output of a successful dedup scan drops the value. -/
theorem dedupLoop_restable (strOf : Nat → Str) (vid : Nat) (v : Value) :
    ∀ (l : List Value) (b : Bool) (l2 : List Value),
      dedupLoop strOf vid v l = some (b, l2) →
      dedupLoop strOf vid v l2 = some (false, l2) := by
  intro l
  induction l with
  | nil => intro b l2 h; simp [dedupLoop] at h
  | cons it rest ih =>
    intro b l2 h
    unfold dedupLoop at h
    by_cases hd : dupMatch strOf it v = true
    · rw [if_pos hd] at h
      by_cases hi : (it.isInconclusive && !v.isInconclusive) = true
      · rw [if_pos hi] at h
        cases h
        unfold dedupLoop
        rw [dupMatch_fillVarId_self]
        simp [fillVarId_isInconclusive, Bool.and_not_self]
      · rw [if_neg hi] at h
        cases h
        unfold dedupLoop
        rw [if_pos hd, if_neg hi]
    · rw [if_neg hd] at h
      cases hr : dedupLoop strOf vid v rest with
      | none => rw [hr] at h; cases h
      | some pr =>
        obtain ⟨b2, l3⟩ := pr
        rw [hr] at h
        cases h
        unfold dedupLoop
        rw [if_neg hd, ih _ _ hr]

/-- Scanning again after a miss-then-append finds and drops the value. -/
theorem dedupLoop_append_self (strOf : Nat → Str) (vid : Nat) (v : Value) :
    ∀ l : List Value, dedupLoop strOf vid v l = none →
      dedupLoop strOf vid v (l ++ [fillVarId vid v]) =
        some (false, l ++ [fillVarId vid v]) := by
  intro l
  induction l with
  | nil =>
    intro _
    simp only [List.nil_append]
    unfold dedupLoop
    rw [dupMatch_fillVarId_self]
    simp [fillVarId_isInconclusive, Bool.and_not_self]
  | cons it rest ih =>
    intro h
    unfold dedupLoop at h
    by_cases hd : dupMatch strOf it v = true
    · rw [if_pos hd] at h
      by_cases hi : (it.isInconclusive && !v.isInconclusive) = true
      · rw [if_pos hi] at h; cases h
      · rw [if_neg hi] at h; cases h
    · rw [if_neg hd] at h
      cases hr : dedupLoop strOf vid v rest with
      | some pr => rw [hr] at h; obtain ⟨b2, l3⟩ := pr; cases h
      | none =>
        show dedupLoop strOf vid v (it :: (rest ++ [fillVarId vid v])) = _
        unfold dedupLoop
        rw [if_neg hd, ih hr]
        rfl

/-- The scan finds and drops the freshly pushed front value. -/
theorem dedupLoop_fill_cons (strOf : Nat → Str) (vid : Nat) (v : Value) (l : List Value) :
    dedupLoop strOf vid v (fillVarId vid v :: l) = some (false, fillVarId vid v :: l) := by
  unfold dedupLoop
  rw [dupMatch_fillVarId_self]
  simp [fillVarId_isInconclusive, Bool.and_not_self]

/-- The purge filter ignores an appended copy of the purged type. -/
theorem filter_fill_append (vid : Nat) (v : Value) (l : List Value) :
    ((l ++ [fillVarId vid v]).filter (fun x => !(x.valueType == v.valueType))) =
      l.filter (fun x => !(x.valueType == v.valueType)) := by
  simp [List.filter_append, fillVarId_valueType]

/-- The purge filter drops a front copy of the purged type. -/
theorem filter_fill_cons (vid : Nat) (v : Value) (l : List Value) :
    ((fillVarId vid v :: l).filter (fun x => !(x.valueType == v.valueType))) =
      l.filter (fun x => !(x.valueType == v.valueType)) := by
  simp [List.filter_cons, fillVarId_valueType]

/-- The purge filter is idempotent. -/
theorem filter_idem2 (v : Value) (l : List Value) :
    ((l.filter (fun x => !(x.valueType == v.valueType))).filter
        (fun x => !(x.valueType == v.valueType))) =
      l.filter (fun x => !(x.valueType == v.valueType)) := by
  rw [List.filter_eq_self]
  intro a ha
  exact (List.mem_filter.mp ha).2

/-- `addValue` of a Known value: purge, then capacity, then push front
(Known Int) or back. -/
theorem addValue_known_eq (strOf : Nat → Str) (vid : Nat) (l : List Value) (v : Value)
    (hk : v.isKnown = true) :
    addValue strOf vid (some l) v =
      (if (l.filter (fun x => !(x.valueType == v.valueType))).length ≥ 10
       then (false, some (l.filter (fun x => !(x.valueType == v.valueType))))
       else if (fillVarId vid v).isKnown && (fillVarId vid v).isIntValue
       then (true, some (fillVarId vid v :: l.filter (fun x => !(x.valueType == v.valueType))))
       else (true, some (l.filter (fun x => !(x.valueType == v.valueType)) ++ [fillVarId vid v]))) := by
  unfold addValue
  simp only [hk, if_true]
  have hfail : ∀ it ∈ l.filter (fun x => !(x.valueType == v.valueType)),
      dupMatch strOf it v = false := by
    intro it hit
    exact dupMatch_false_of_type strOf it v (by simpa using List.of_mem_filter hit)
  by_cases hc : (l.filter (fun x => !(x.valueType == v.valueType))).length ≥ 10
  · simp [hc]
  · rw [if_neg hc, if_neg hc, dedupLoop_none strOf vid v _ hfail]

/-- `addValue` of a non-Known value: capacity, dedup scan, push back. -/
theorem addValue_unknown_eq (strOf : Nat → Str) (vid : Nat) (l : List Value) (v : Value)
    (hk : v.isKnown = false) :
    addValue strOf vid (some l) v =
      (if l.length ≥ 10 then (false, some l)
       else match dedupLoop strOf vid v l with
            | some (b, l2) => (b, some l2)
            | none => (true, some (l ++ [fillVarId vid v]))) := by
  unfold addValue
  simp only [hk, Bool.false_eq_true, if_false]
  by_cases hc : l.length ≥ 10
  · simp [hc]
  · rw [if_neg hc, if_neg hc]
    cases hr : dedupLoop strOf vid v l with
    | some pr => obtain ⟨b, l2⟩ := pr; rfl
    | none => simp [fillVarId_isKnown, hk]

/-- Calling `addValue` a second time with the same value leaves the value
list unchanged. -/
theorem addValue_twice (strOf : Nat → Str) (vid : Nat) (vals : Option (List Value)) (v : Value) :
    (addValue strOf vid (addValue strOf vid vals v).2 v).2 = (addValue strOf vid vals v).2 := by
  by_cases hk : v.isKnown = true
  · cases vals with
    | none =>
      have h1 : addValue strOf vid none v = (true, some [fillVarId vid v]) := rfl
      rw [h1]
      rw [addValue_known_eq strOf vid [fillVarId vid v] v hk]
      rw [show (([fillVarId vid v] : List Value).filter
            (fun x => !(x.valueType == v.valueType))) = ([] : List Value) from by
        simp [List.filter_cons, fillVarId_valueType]]
      by_cases hw : ((fillVarId vid v).isKnown && (fillVarId vid v).isIntValue) = true <;>
        simp [hw]
    | some l =>
      rw [addValue_known_eq strOf vid l v hk]
      by_cases hc : (l.filter (fun x => !(x.valueType == v.valueType))).length ≥ 10
      · rw [if_pos hc]
        rw [addValue_known_eq strOf vid _ v hk]
        rw [filter_idem2]
        rw [if_pos hc]
      · rw [if_neg hc]
        by_cases hw : ((fillVarId vid v).isKnown && (fillVarId vid v).isIntValue) = true
        · rw [if_pos hw]
          rw [addValue_known_eq strOf vid _ v hk]
          rw [filter_fill_cons, filter_idem2]
          rw [if_neg hc, if_pos hw]
        · rw [if_neg hw]
          rw [addValue_known_eq strOf vid _ v hk]
          rw [filter_fill_append, filter_idem2]
          rw [if_neg hc, if_neg hw]
  · have hk2 : v.isKnown = false := by revert hk; cases v.isKnown <;> simp
    cases vals with
    | none =>
      have h1 : addValue strOf vid none v = (true, some [fillVarId vid v]) := rfl
      rw [h1]
      rw [addValue_unknown_eq strOf vid [fillVarId vid v] v hk2]
      rw [if_neg (by simp), dedupLoop_fill_cons]
    | some l =>
      rw [addValue_unknown_eq strOf vid l v hk2]
      by_cases hc : l.length ≥ 10
      · rw [if_pos hc]
        rw [addValue_unknown_eq strOf vid l v hk2]
        rw [if_pos hc]
      · rw [if_neg hc]
        cases hr : dedupLoop strOf vid v l with
        | some pr =>
          obtain ⟨b, l2⟩ := pr
          show (addValue strOf vid (some l2) v).2 = some l2
          rw [addValue_unknown_eq strOf vid l2 v hk2]
          have hlen := dedupLoop_length strOf vid v l b l2 hr
          rw [if_neg (by omega)]
          rw [dedupLoop_restable strOf vid v l b l2 hr]
        | none =>
          show (addValue strOf vid (some (l ++ [fillVarId vid v])) v).2 =
            some (l ++ [fillVarId vid v])
          rw [addValue_unknown_eq strOf vid (l ++ [fillVarId vid v]) v hk2]
          by_cases hc2 : (l ++ [fillVarId vid v]).length ≥ 10
          · rw [if_pos hc2]
          · rw [if_neg hc2, dedupLoop_append_self strOf vid v l hr]

/-- Claim C4: `addValue` de-duplicates — a second `addValue` of the same
value leaves the value list unchanged beyond the first insertion; and
concretely, `addValue(Known Int 5)` then `addValue(Possible Int 5)`
leaves a one-element list whose surviving value is the Known one (the
second call returning false). -/
theorem C4_addValue_dedup :
    (∀ (strOf : Nat → Str) (vid : Nat) (vals : Option (List Value)) (v : Value),
       (addValue strOf vid (addValue strOf vid vals v).2 v).2 = (addValue strOf vid vals v).2) ∧
    (addValue strOfEmpty 0 none intKnown5 = (true, some [intKnown5]) ∧
     addValue strOfEmpty 0 (some [intKnown5]) intPossible5 = (false, some [intKnown5]) ∧
     [intKnown5].length = 1 ∧ intKnown5.isKnown = true) :=
  ⟨addValue_twice, by decide⟩

/-- Claim C6: `findClosingBracket` returns null on a non-`<` token; on the
`<` of `A < B < C >> D` it returns the `>>` token (depth collapses by
two); it jumps across a linked `(`-`)` sub-range via the link (returning
the `>` after it); and it returns null upon reaching a closing `)`. -/
theorem C6_findClosingBracket :
    (∀ (m : Mem) (fuel i : Nat) (t : TokNode), mget m i = some t →
       t.str ≠ ("<".toList) → Token.findClosingBracket m fuel i = Except.ok none) ∧
    Token.findClosingBracket exTmpl 10 1 = Except.ok (some 5) ∧
    mget exTmpl 5 = some (chainTok (">>".toList) (some 4) (some 6)) ∧
    Token.findClosingBracket exLtParen 10 0 = Except.ok (some 4) ∧
    Token.findClosingBracket exLtClose 10 0 = Except.ok none := by
  refine ⟨?_, by decide, by decide, by decide, by decide⟩
  intro m fuel i t h hne
  unfold Token.findClosingBracket
  simp only [h]
  rw [if_pos (bne_iff_ne.mpr hne)]

/-- Witness for C6 on a concrete non-`<` token. -/
theorem C6_findClosingBracket_witness :
    Token.findClosingBracket exTmpl 5 0 = Except.ok none :=
  C6_findClosingBracket.1 exTmpl 5 0 (chainTok ("A".toList) none (some 1)) (by decide) (by decide)

/-- Claim C7: `Match` (and `findmatch`) throw `InternalError` when the
pattern scan reaches a `%varid%` element while the supplied varid is 0 —
at the dispatch level (`multiComparePercent`), for the bare pattern
`%varid%` on any token, inside an alternation both when an earlier
alternative fails (`foo|%varid%` against `bar`) and leading with the
alternation (`%varid%|x`); when an earlier alternative matches, the
`%varid%` is not reached and no error is thrown. -/
theorem C7_varid_throw :
    (∀ (t : TokNode) (h : Str), at0 h.tail 0 = 'v' → ¬(at0 h.tail 3 = '%') →
       Token.multiComparePercent t h 0 = Except.error ()) ∧
    (∀ (m : Mem) (i : Nat) (t : TokNode), mget m i = some t →
       Token.Match m (some i) ("%varid%".toList) 0 = Except.error ()) ∧
    (∀ (m : Mem) (i : Nat) (t : TokNode), mget m i = some t →
       Token.Match m (some i) ("%varid%|x".toList) 0 = Except.error ()) ∧
    (∀ (m : Mem) (i : Nat) (t : TokNode), mget m i = some t → t.str = ("bar".toList) →
       Token.Match m (some i) ("foo|%varid%".toList) 0 = Except.error ()) ∧
    (∀ (m : Mem) (i : Nat) (t : TokNode), mget m i = some t → t.str = ("foo".toList) →
       Token.Match m (some i) ("foo|%varid%".toList) 0 = Except.ok true) ∧
    (∀ (m : Mem) (i : Nat) (t : TokNode) (fu : Nat), mget m i = some t →
       Token.findmatch m (fu + 1) (some i) ("%varid%".toList) 0 = Except.error ()) := by
  refine ⟨?_, ?_, ?_, ?_, ?_, ?_⟩
  · intro t h hv hp
    unfold Token.multiComparePercent
    simp +decide [List.drop_one, hv, hp]
  · intro m i t h
    unfold Token.Match
    simp +decide [Token.MatchF, h, Token.multiCompare, Token.multiComparePercent]
  · intro m i t h
    unfold Token.Match
    simp +decide [Token.MatchF, h, Token.multiCompare, Token.multiComparePercent]
  · intro m i t h hs
    unfold Token.Match
    simp +decide [Token.MatchF, h, hs, Token.multiCompare, Token.multiComparePercent]
  · intro m i t h hs
    unfold Token.Match
    simp +decide [Token.MatchF, h, hs, Token.multiCompare, Token.multiComparePercent]
  · intro m i t fu h
    have h1 : Token.Match m (some i) ("%varid%".toList) 0 = Except.error () := by
      unfold Token.Match
      simp +decide [Token.MatchF, h, Token.multiCompare, Token.multiComparePercent]
    simp only [Token.findmatch]
    rw [h1]

/-- Witness for C7 on the concrete stream `bar foo`. -/
theorem C7_varid_throw_witness :
    Token.multiComparePercent tokBar ("%varid%".toList) 0 = Except.error () ∧
    Token.Match exBarFoo (some 0) ("%varid%".toList) 0 = Except.error () ∧
    Token.Match exBarFoo (some 0) ("%varid%|x".toList) 0 = Except.error () ∧
    Token.Match exBarFoo (some 0) ("foo|%varid%".toList) 0 = Except.error () ∧
    Token.Match exBarFoo (some 1) ("foo|%varid%".toList) 0 = Except.ok true ∧
    Token.findmatch exBarFoo 3 (some 0) ("%varid%".toList) 0 = Except.error () :=
  ⟨C7_varid_throw.1 tokBar ("%varid%".toList) (by decide) (by decide),
   C7_varid_throw.2.1 exBarFoo 0 { tokBar with nnext := some 1 } (by decide),
   C7_varid_throw.2.2.1 exBarFoo 0 { tokBar with nnext := some 1 } (by decide),
   C7_varid_throw.2.2.2.1 exBarFoo 0 { tokBar with nnext := some 1 } (by decide) (by decide),
   C7_varid_throw.2.2.2.2.1 exBarFoo 1 { tokFoo with nprev := some 0 } (by decide) (by decide),
   C7_varid_throw.2.2.2.2.2 exBarFoo 0 { tokBar with nnext := some 1 } 2 (by decide)⟩
theorem cls_alpha (s : Str) (v : Nat) (lk : Bool) (P : TokType) (h0 : ¬ s = [])
    (h1 : ¬(s = ("true".toList) ∨ s = ("false".toList)))
    (h2 : ¬ isStringCharLiteral s '\"' = true) (h3 : ¬ isStringCharLiteral s '\'' = true)
    (ha : cIsAlpha (at0 s 0) = true ∨ at0 s 0 = '_' ∨ at0 s 0 = '$') :
    classifyStr s v lk P =
      (if v ≠ 0 then TokType.eVariable
       else if P ≠ TokType.eVariable ∧ P ≠ TokType.eFunction ∧
               P ≠ TokType.eType ∧ P ≠ TokType.eKeyword then TokType.eName
       else P) := by
  unfold classifyStr
  rw [if_neg h0, if_neg h1, if_neg h2, if_neg h3, if_pos ha]

theorem cls_tail (s : Str) (v : Nat) (lk : Bool) (P Q : TokType) (h0 : ¬ s = [])
    (h1 : ¬(s = ("true".toList) ∨ s = ("false".toList)))
    (h2 : ¬ isStringCharLiteral s '\"' = true) (h3 : ¬ isStringCharLiteral s '\'' = true)
    (ha : ¬(cIsAlpha (at0 s 0) = true ∨ at0 s 0 = '_' ∨ at0 s 0 = '$')) :
    classifyStr s v lk P = classifyStr s v lk Q := by
  unfold classifyStr
  rw [if_neg h0, if_neg h1, if_neg h2, if_neg h3, if_neg ha,
      if_neg h0, if_neg h1, if_neg h2, if_neg h3, if_neg ha]

theorem cls_idem (s : Str) (v : Nat) (lk : Bool) (T0 : TokType) :
    classifyStr s v lk (classifyStr s v lk T0) = classifyStr s v lk T0 := by
  by_cases h0 : s = []
  · conv_rhs => unfold classifyStr
    conv_lhs => unfold classifyStr
    rw [if_pos h0, if_pos h0]
  by_cases h1 : s = ("true".toList) ∨ s = ("false".toList)
  · conv_rhs => unfold classifyStr
    conv_lhs => unfold classifyStr
    rw [if_neg h0, if_pos h1, if_neg h0, if_pos h1]
  by_cases h2 : isStringCharLiteral s '\"' = true
  · conv_rhs => unfold classifyStr
    conv_lhs => unfold classifyStr
    rw [if_neg h0, if_neg h1, if_pos h2, if_neg h0, if_neg h1, if_pos h2]
  by_cases h3 : isStringCharLiteral s '\'' = true
  · conv_rhs => unfold classifyStr
    conv_lhs => unfold classifyStr
    rw [if_neg h0, if_neg h1, if_neg h2, if_pos h3, if_neg h0, if_neg h1, if_neg h2, if_pos h3]
  by_cases ha : cIsAlpha (at0 s 0) = true ∨ at0 s 0 = '_' ∨ at0 s 0 = '$'
  · rw [cls_alpha s v lk T0 h0 h1 h2 h3 ha,
        cls_alpha s v lk _ h0 h1 h2 h3 ha]
    by_cases hv : v ≠ 0
    · rw [if_pos hv, if_pos hv]
    · rw [if_neg hv, if_neg hv]
      by_cases hp : T0 ≠ TokType.eVariable ∧ T0 ≠ TokType.eFunction ∧
          T0 ≠ TokType.eType ∧ T0 ≠ TokType.eKeyword
      · rw [if_pos hp, if_pos (by simp)]
      · rw [if_neg hp, if_neg hp]
  · exact cls_tail s v lk _ T0 h0 h1 h2 h3 ha

theorem cls_std (s : Str) (hs : s ∈ stdTypes) (v : Nat) (lk : Bool) (P : TokType) :
    classifyStr s v lk P =
      (if v ≠ 0 then TokType.eVariable
       else if P ≠ TokType.eVariable ∧ P ≠ TokType.eFunction ∧
               P ≠ TokType.eType ∧ P ≠ TokType.eKeyword then TokType.eName
       else P) := by
  fin_cases hs <;>
    exact cls_alpha _ v lk P (by decide) (by decide) (by decide) (by decide) (by decide)

theorem upi_eq (x : TokNode) :
    update_property_info x =
      update_property_isStandardType (update_property_char_string_literal
        { x with flags := { x.flags with isControlFlowKeyword := controlFlowKeywords.contains x.str },
                 tokType := classifyStr x.str x.varId x.link.isSome x.tokType }) := rfl

theorem stdT_eq (x : TokNode) :
    update_property_isStandardType x =
      { x with
        flags := { x.flags with isStandardType := decide (¬ x.str.length < 3 ∧ stdTypes.contains x.str = true) },
        tokType := if ¬ x.str.length < 3 ∧ stdTypes.contains x.str = true then TokType.eType else x.tokType } := by
  unfold update_property_isStandardType
  by_cases h1 : x.str.length < 3
  · simp [h1]
  · by_cases h2 : stdTypes.contains x.str = true
    · have hm : x.str ∈ stdTypes := by simpa using h2
      simp [h1, h2, hm]
    · have hm : ¬ x.str ∈ stdTypes := by simpa using h2
      simp [h1, h2, hm]

theorem lit_none (x : TokNode) (h : ¬(x.tokType = TokType.eString ∨ x.tokType = TokType.eChar)) :
    update_property_char_string_literal x = x := by
  unfold update_property_char_string_literal
  rw [if_pos h]

theorem lit_nofind (x : TokNode)
    (hf : literalPrefixes.find? (fun p =>
      (decide (x.tokType = TokType.eString) && (p ++ ['\"']).isPrefixOf x.str) ||
      (decide (x.tokType = TokType.eChar) && (p ++ ['\'']).isPrefixOf x.str)) = none) :
    update_property_char_string_literal x = x := by
  unfold update_property_char_string_literal
  by_cases h : ¬(x.tokType = TokType.eString ∨ x.tokType = TokType.eChar)
  · rw [if_pos h]
  · rw [if_neg h, hf]

theorem lit_find (x : TokNode) (p0 : Str)
    (hT : x.tokType = TokType.eString ∨ x.tokType = TokType.eChar)
    (hf : literalPrefixes.find? (fun p =>
      (decide (x.tokType = TokType.eString) && (p ++ ['\"']).isPrefixOf x.str) ||
      (decide (x.tokType = TokType.eChar) && (p ++ ['\'']).isPrefixOf x.str)) = some p0) :
    update_property_char_string_literal x =
      { x with
        str := x.str.drop p0.length,
        flags := { x.flags with isLong := p0 != ("u8".toList) } } := by
  unfold update_property_char_string_literal
  rw [if_neg (by simp [hT]), hf]

theorem iscl_endsWith (s : Str) (q : Char) (h : isStringCharLiteral s q = true) :
    s.getLast? = some q := by
  unfold isStringCharLiteral at h
  by_cases he : endsWithC s q
  · unfold endsWithC at he; simpa using he
  · rw [if_pos (by simp [he])] at h; cases h

theorem cfk_not_quote (s : Str) (q : Char) (hq : q = '\"' ∨ q = '\'')
    (h : s.getLast? = some q) : controlFlowKeywords.contains s = false := by
  by_contra hc
  have hmem : s ∈ controlFlowKeywords := by
    have h2 : controlFlowKeywords.contains s = true := by
      revert hc; cases controlFlowKeywords.contains s <;> simp
    simpa using h2
  fin_cases hmem <;> rcases hq with rfl | rfl <;> exact absurd h (by decide)

theorem strip_decomp (s : Str) (p0 : Str) (q : Char)
    (hpre : (p0 ++ [q]).isPrefixOf s = true) (hbad : s ≠ p0 ++ [q]) :
    ∃ r : Str, r ≠ [] ∧ s = (p0 ++ [q]) ++ r ∧ s.drop p0.length = q :: r := by
  obtain ⟨r, hr⟩ := List.isPrefixOf_iff_prefix.mp hpre
  refine ⟨r, ?_, hr.symm, ?_⟩
  · rintro rfl
    exact hbad (by rw [← hr, List.append_nil])
  · rw [← hr, List.append_assoc]
    exact List.drop_left p0 ([q] ++ r)

theorem strip_tail_ends (s p0 r : Str) (q : Char) (hs : s = (p0 ++ [q]) ++ r)
    (hrne : r ≠ []) (hlast : s.getLast? = some q) : (q :: r).getLast? = some q := by
  obtain ⟨y, hy⟩ : ∃ y, r.getLast? = some y := by
    cases hgr : r.getLast? with
    | some y => exact ⟨y, rfl⟩
    | none => exact absurd (List.getLast?_eq_none_iff.mp hgr) hrne
  have h1 : r.getLast? = some q := by
    rw [hs, List.getLast?_append, hy] at hlast
    simpa [hy] using hlast
  rw [show q :: r = [q] ++ r from rfl, List.getLast?_append, h1]
  rfl

theorem iscl_true_of (s2 : Str) (q : Char) (hh : at0 s2 0 = q) (hlen : 1 < s2.length)
    (hlast : s2.getLast? = some q) : isStringCharLiteral s2 q = true := by
  unfold isStringCharLiteral endsWithC
  rw [hlast]
  simp [hh, hlen]

theorem iscl_false_of_ne (s2 : Str) (q q2 : Char) (hlast : s2.getLast? = some q2)
    (hne : q2 ≠ q) : isStringCharLiteral s2 q = false := by
  unfold isStringCharLiteral endsWithC
  rw [hlast]
  simp [hne]

theorem cls_of_quote (s2 : Str) (v : Nat) (lk : Bool) (P : TokType) (q : Char)
    (hq : q = '\"' ∨ q = '\'') (hh : at0 s2 0 = q) (hlen : 1 < s2.length)
    (hlast : s2.getLast? = some q) :
    classifyStr s2 v lk P = (if q = '\"' then TokType.eString else TokType.eChar) := by
  have h0 : ¬ s2 = [] := by
    intro h; rw [h] at hlen; simp at hlen
  have h1 : ¬(s2 = ("true".toList) ∨ s2 = ("false".toList)) := by
    rintro (h | h) <;> rw [h] at hh <;> rcases hq with rfl | rfl <;> simp at hh <;> exact absurd hh (by decide)
  rcases hq with rfl | rfl
  · rw [if_pos rfl]
    unfold classifyStr
    rw [if_neg h0, if_neg h1, if_pos (iscl_true_of s2 _ hh hlen hlast)]
  · rw [if_neg (by decide)]
    unfold classifyStr
    rw [if_neg h0, if_neg h1,
        if_neg (by rw [iscl_false_of_ne s2 '\"' '\'' hlast (by decide)]; simp),
        if_pos (iscl_true_of s2 _ hh hlen hlast)]

theorem find2_none (s2 : Str) (T : TokType) (hh : at0 s2 0 = '\"' ∨ at0 s2 0 = '\'') :
    literalPrefixes.find? (fun p =>
      (decide (T = TokType.eString) && (p ++ ['\"']).isPrefixOf s2) ||
      (decide (T = TokType.eChar) && (p ++ ['\'']).isPrefixOf s2)) = none := by
  rw [List.find?_eq_none]
  intro p hp
  rcases s2 with _ | ⟨c2, r2⟩
  · rcases hh with hh | hh <;> exact absurd hh (by decide)
  · have hc2 : c2 = '\"' ∨ c2 = '\'' := by simpa [at0] using hh
    fin_cases hp <;> rcases hc2 with rfl | rfl <;>
      simp [List.isPrefixOf, List.cons_append]

theorem upi_eq2 (x : TokNode) :
    update_property_info x =
      update_property_isStandardType (update_property_char_string_literal (clsStep x)) := rfl

theorem clsStep_str (t : TokNode) : (clsStep t).str = t.str := rfl

theorem clsStep_varId (t : TokNode) : (clsStep t).varId = t.varId := rfl

theorem clsStep_link (t : TokNode) : (clsStep t).link = t.link := rfl

theorem clsStep_tokType (t : TokNode) :
    (clsStep t).tokType = classifyStr t.str t.varId t.link.isSome t.tokType := rfl

theorem clsStep_flags (t : TokNode) :
    (clsStep t).flags = { t.flags with isControlFlowKeyword := controlFlowKeywords.contains t.str } := rfl

theorem cls_inv_str (s : Str) (v : Nat) (lk : Bool) (P : TokType)
    (h : classifyStr s v lk P = TokType.eString) : isStringCharLiteral s '\"' = true := by
  unfold classifyStr at h
  by_cases h0 : s = []
  · rw [if_pos h0] at h; cases h
  rw [if_neg h0] at h
  by_cases h1 : s = ("true".toList) ∨ s = ("false".toList)
  · rw [if_pos h1] at h; cases h
  rw [if_neg h1] at h
  by_cases h2 : isStringCharLiteral s '\"' = true
  · exact h2
  rw [if_neg h2] at h
  by_cases h3 : isStringCharLiteral s '\'' = true
  · rw [if_pos h3] at h; cases h
  rw [if_neg h3] at h
  by_cases h4 : cIsAlpha (at0 s 0) = true ∨ at0 s 0 = '_' ∨ at0 s 0 = '$'
  · rw [if_pos h4] at h
    by_cases hv : v ≠ 0
    · rw [if_pos hv] at h; cases h
    rw [if_neg hv] at h
    by_cases hP : P ≠ TokType.eVariable ∧ P ≠ TokType.eFunction ∧ P ≠ TokType.eType ∧ P ≠ TokType.eKeyword
    · rw [if_pos hP] at h; cases h
    · rw [if_neg hP] at h
      subst h
      exact absurd (by decide) hP
  rw [if_neg h4] at h
  by_cases h5 : cIsDigit (at0 s 0) = true ∨ (s.length > 1 ∧ at0 s 0 = '-' ∧ cIsDigit (at0 s 1) = true)
  · rw [if_pos h5] at h; cases h
  rw [if_neg h5] at h
  by_cases h6 : s = ("=".toList) ∨ s = ("<<=".toList) ∨ s = (">>=".toList) ∨ (s.length = 2 ∧ at0 s 1 = '=' ∧ ("+-*/%&^|".toList).contains (at0 s 0) = true)
  · rw [if_pos h6] at h; cases h
  rw [if_neg h6] at h
  by_cases h7 : s.length = 1 ∧ (",[]()?:".toList).contains (at0 s 0) = true
  · rw [if_pos h7] at h; cases h
  rw [if_neg h7] at h
  by_cases h8 : s = ("<<".toList) ∨ s = (">>".toList) ∨ (s.length = 1 ∧ ("+-*/%".toList).contains (at0 s 0) = true)
  · rw [if_pos h8] at h; cases h
  rw [if_neg h8] at h
  by_cases h9 : s.length = 1 ∧ ("&|^~".toList).contains (at0 s 0) = true
  · rw [if_pos h9] at h; cases h
  rw [if_neg h9] at h
  by_cases h10 : s = ("&&".toList) ∨ s = ("||".toList) ∨ s = ("!".toList)
  · rw [if_pos h10] at h; cases h
  rw [if_neg h10] at h
  by_cases h11 : lk = false ∧ (s = ("==".toList) ∨ s = ("!=".toList) ∨ s = ("<".toList) ∨ s = ("<=".toList) ∨ s = (">".toList) ∨ s = (">=".toList))
  · rw [if_pos h11] at h; cases h
  rw [if_neg h11] at h
  by_cases h12 : s = ("++".toList) ∨ s = ("--".toList)
  · rw [if_pos h12] at h; cases h
  rw [if_neg h12] at h
  by_cases h13 : s.length = 1 ∧ (("{}".toList).contains (at0 s 0) = true ∨ (lk = true ∧ ("<>".toList).contains (at0 s 0) = true))
  · rw [if_pos h13] at h; cases h
  rw [if_neg h13] at h
  cases h

theorem cls_inv_char (s : Str) (v : Nat) (lk : Bool) (P : TokType)
    (h : classifyStr s v lk P = TokType.eChar) : isStringCharLiteral s '\'' = true := by
  unfold classifyStr at h
  by_cases h0 : s = []
  · rw [if_pos h0] at h; cases h
  rw [if_neg h0] at h
  by_cases h1 : s = ("true".toList) ∨ s = ("false".toList)
  · rw [if_pos h1] at h; cases h
  rw [if_neg h1] at h
  by_cases h2 : isStringCharLiteral s '\"' = true
  · rw [if_pos h2] at h; cases h
  rw [if_neg h2] at h
  by_cases h3 : isStringCharLiteral s '\'' = true
  · exact h3
  rw [if_neg h3] at h
  by_cases h4 : cIsAlpha (at0 s 0) = true ∨ at0 s 0 = '_' ∨ at0 s 0 = '$'
  · rw [if_pos h4] at h
    by_cases hv : v ≠ 0
    · rw [if_pos hv] at h; cases h
    rw [if_neg hv] at h
    by_cases hP : P ≠ TokType.eVariable ∧ P ≠ TokType.eFunction ∧ P ≠ TokType.eType ∧ P ≠ TokType.eKeyword
    · rw [if_pos hP] at h; cases h
    · rw [if_neg hP] at h
      subst h
      exact absurd (by decide) hP
  rw [if_neg h4] at h
  by_cases h5 : cIsDigit (at0 s 0) = true ∨ (s.length > 1 ∧ at0 s 0 = '-' ∧ cIsDigit (at0 s 1) = true)
  · rw [if_pos h5] at h; cases h
  rw [if_neg h5] at h
  by_cases h6 : s = ("=".toList) ∨ s = ("<<=".toList) ∨ s = (">>=".toList) ∨ (s.length = 2 ∧ at0 s 1 = '=' ∧ ("+-*/%&^|".toList).contains (at0 s 0) = true)
  · rw [if_pos h6] at h; cases h
  rw [if_neg h6] at h
  by_cases h7 : s.length = 1 ∧ (",[]()?:".toList).contains (at0 s 0) = true
  · rw [if_pos h7] at h; cases h
  rw [if_neg h7] at h
  by_cases h8 : s = ("<<".toList) ∨ s = (">>".toList) ∨ (s.length = 1 ∧ ("+-*/%".toList).contains (at0 s 0) = true)
  · rw [if_pos h8] at h; cases h
  rw [if_neg h8] at h
  by_cases h9 : s.length = 1 ∧ ("&|^~".toList).contains (at0 s 0) = true
  · rw [if_pos h9] at h; cases h
  rw [if_neg h9] at h
  by_cases h10 : s = ("&&".toList) ∨ s = ("||".toList) ∨ s = ("!".toList)
  · rw [if_pos h10] at h; cases h
  rw [if_neg h10] at h
  by_cases h11 : lk = false ∧ (s = ("==".toList) ∨ s = ("!=".toList) ∨ s = ("<".toList) ∨ s = ("<=".toList) ∨ s = (">".toList) ∨ s = (">=".toList))
  · rw [if_pos h11] at h; cases h
  rw [if_neg h11] at h
  by_cases h12 : s = ("++".toList) ∨ s = ("--".toList)
  · rw [if_pos h12] at h; cases h
  rw [if_neg h12] at h
  by_cases h13 : s.length = 1 ∧ (("{}".toList).contains (at0 s 0) = true ∨ (lk = true ∧ ("<>".toList).contains (at0 s 0) = true))
  · rw [if_pos h13] at h; cases h
  rw [if_neg h13] at h
  cases h

theorem std_not_quote (s : Str) (q : Char) (hq : q = '\"' ∨ q = '\'')
    (h : s.getLast? = some q) : stdTypes.contains s = false := by
  by_contra hc
  have hmem : s ∈ stdTypes := by
    have h2 : stdTypes.contains s = true := by
      revert hc; cases stdTypes.contains s <;> simp
    simpa using h2
  fin_cases hmem <;> rcases hq with rfl | rfl <;> exact absurd h (by decide)

theorem clsStep_fix (T : TokNode)
    (hc : classifyStr T.str T.varId T.link.isSome T.tokType = T.tokType)
    (hk : controlFlowKeywords.contains T.str = T.flags.isControlFlowKeyword) :
    clsStep T = T := by
  unfold clsStep
  rw [hc, hk]

theorem upi_nolit (t : TokNode)
    (hf : update_property_char_string_literal (clsStep t) = clsStep t) :
    update_property_info t =
      { t with
        flags := { t.flags with
          isControlFlowKeyword := controlFlowKeywords.contains t.str,
          isStandardType := decide (¬ t.str.length < 3 ∧ stdTypes.contains t.str = true) },
        tokType := if ¬ t.str.length < 3 ∧ stdTypes.contains t.str = true then TokType.eType
                   else classifyStr t.str t.varId t.link.isSome t.tokType } := by
  rw [upi_eq2, hf, stdT_eq]
  rfl

theorem upi_strip (t : TokNode) (p0 : Str)
    (hT : (clsStep t).tokType = TokType.eString ∨ (clsStep t).tokType = TokType.eChar)
    (hf : literalPrefixes.find? (fun p =>
      (decide ((clsStep t).tokType = TokType.eString) && (p ++ ['\"']).isPrefixOf (clsStep t).str) ||
      (decide ((clsStep t).tokType = TokType.eChar) && (p ++ ['\'']).isPrefixOf (clsStep t).str)) = some p0) :
    update_property_info t =
      { t with
        str := t.str.drop p0.length,
        flags := { t.flags with
          isLong := p0 != ("u8".toList),
          isControlFlowKeyword := controlFlowKeywords.contains t.str,
          isStandardType := decide (¬ (t.str.drop p0.length).length < 3 ∧
            stdTypes.contains (t.str.drop p0.length) = true) },
        tokType := if ¬ (t.str.drop p0.length).length < 3 ∧
            stdTypes.contains (t.str.drop p0.length) = true then TokType.eType
          else classifyStr t.str t.varId t.link.isSome t.tokType } := by
  rw [upi_eq2, lit_find _ p0 hT hf, stdT_eq]
  rfl

theorem stdT_fix (T : TokNode)
    (h1 : T.flags.isStandardType = decide (¬ T.str.length < 3 ∧ stdTypes.contains T.str = true))
    (h2 : (¬ T.str.length < 3 ∧ stdTypes.contains T.str = true) → T.tokType = TokType.eType) :
    update_property_isStandardType T = T := by
  rw [stdT_eq, ← h1]
  by_cases hs : ¬ T.str.length < 3 ∧ stdTypes.contains T.str = true
  · rw [if_pos hs, ← h2 hs]
  · rw [if_neg hs]

theorem upi_fix (T : TokNode)
    (hc : classifyStr T.str T.varId T.link.isSome T.tokType = T.tokType)
    (hk : controlFlowKeywords.contains T.str = T.flags.isControlFlowKeyword)
    (h1 : T.flags.isStandardType = decide (¬ T.str.length < 3 ∧ stdTypes.contains T.str = true))
    (h2 : (¬ T.str.length < 3 ∧ stdTypes.contains T.str = true) → T.tokType = TokType.eType)
    (hfix : update_property_char_string_literal T = T) :
    update_property_info T = T := by
  rw [upi_eq2, clsStep_fix T hc hk, hfix, stdT_fix T h1 h2]

theorem upi_fix_std (T : TokNode)
    (hs : ¬ T.str.length < 3 ∧ stdTypes.contains T.str = true)
    (hT : T.tokType = TokType.eType)
    (hk : controlFlowKeywords.contains T.str = T.flags.isControlFlowKeyword)
    (hstd : T.flags.isStandardType = true) :
    update_property_info T = T := by
  have hmem : T.str ∈ stdTypes := by simpa using hs.2
  have hcls : classifyStr T.str T.varId T.link.isSome T.tokType =
      (if T.varId ≠ 0 then TokType.eVariable else TokType.eType) := by
    rw [cls_std T.str hmem T.varId T.link.isSome T.tokType, hT]
    by_cases hv : T.varId ≠ 0
    · rw [if_pos hv, if_pos hv]
    · rw [if_neg hv, if_neg hv,
        if_neg (by decide : ¬(TokType.eType ≠ TokType.eVariable ∧ TokType.eType ≠ TokType.eFunction ∧ TokType.eType ≠ TokType.eType ∧ TokType.eType ≠ TokType.eKeyword))]
  have hA : ¬((clsStep T).tokType = TokType.eString ∨ (clsStep T).tokType = TokType.eChar) := by
    rw [clsStep_tokType, hcls]
    by_cases hv : T.varId ≠ 0
    · rw [if_pos hv]; decide
    · rw [if_neg hv]; decide
  rw [upi_nolit T (lit_none _ hA), if_pos hs, hk, decide_eq_true hs, ← hstd, ← hT]

/-- C8 (corrected): classification is idempotent for every token whose
lexeme is not exactly a literal prefix (`u8`, `u`, `U`, `L`) followed by a
lone double or single quote: a second `update_property_info` call on the
unchanged `str` is a no-op on the whole token (str, kind and all flags,
including `isLong`).  For the eight excluded lexemes the first call strips
the prefix down to a bare quote, which the second call reclassifies as
`eOther` (see the counterexample). -/
theorem C8_update_property_info_idem (t : TokNode)
    (hbad : ∀ p ∈ literalPrefixes, t.str ≠ p ++ ['\"'] ∧ t.str ≠ p ++ ['\'']) :
    update_property_info (update_property_info t) = update_property_info t := by
  by_cases hA : (clsStep t).tokType = TokType.eString ∨ (clsStep t).tokType = TokType.eChar
  case neg =>
    by_cases hsc : ¬ t.str.length < 3 ∧ stdTypes.contains t.str = true
    · rw [upi_nolit t (lit_none _ hA), if_pos hsc]
      apply upi_fix_std
      · exact hsc
      · exact rfl
      · exact rfl
      · exact decide_eq_true hsc
    · rw [upi_nolit t (lit_none _ hA), if_neg hsc]
      apply upi_fix
      · exact cls_idem t.str t.varId t.link.isSome t.tokType
      · exact rfl
      · exact rfl
      · exact fun h => absurd h hsc
      · apply lit_none
        exact hA
  case pos =>
    cases hf : literalPrefixes.find? (fun p =>
        (decide ((clsStep t).tokType = TokType.eString) && (p ++ ['\"']).isPrefixOf (clsStep t).str) ||
        (decide ((clsStep t).tokType = TokType.eChar) && (p ++ ['\'']).isPrefixOf (clsStep t).str)) with
    | none =>
      have hs : ¬(¬ t.str.length < 3 ∧ stdTypes.contains t.str = true) := by
        rcases hA with hE0 | hE0
        · have hE0' : classifyStr t.str t.varId t.link.isSome t.tokType = TokType.eString := hE0
          have hlast := iscl_endsWith _ _ (cls_inv_str _ _ _ _ hE0')
          have hstdf := std_not_quote t.str '\"' (Or.inl rfl) hlast
          intro hcon
          rw [hstdf] at hcon
          exact absurd hcon.2 (by decide)
        · have hE0' : classifyStr t.str t.varId t.link.isSome t.tokType = TokType.eChar := hE0
          have hlast := iscl_endsWith _ _ (cls_inv_char _ _ _ _ hE0')
          have hstdf := std_not_quote t.str '\'' (Or.inr rfl) hlast
          intro hcon
          rw [hstdf] at hcon
          exact absurd hcon.2 (by decide)
      rw [upi_nolit t (lit_nofind _ hf), if_neg hs]
      apply upi_fix
      · exact cls_idem t.str t.varId t.link.isSome t.tokType
      · exact rfl
      · exact rfl
      · exact fun h => absurd h hs
      · apply lit_nofind
        exact hf
    | some p0 =>
      have hmem := List.mem_of_find?_eq_some hf
      have hp0 := List.find?_some hf
      have hp2 : ((decide ((clsStep t).tokType = TokType.eString) && (p0 ++ ['\"']).isPrefixOf (clsStep t).str) ||
          (decide ((clsStep t).tokType = TokType.eChar) && (p0 ++ ['\'']).isPrefixOf (clsStep t).str)) = true := hp0
      rcases hA with hE0 | hE0
      · have hE0' : classifyStr t.str t.varId t.link.isSome t.tokType = TokType.eString := hE0
        rw [hE0, clsStep_str] at hp2
        have hp' : (p0 ++ ['\"']).isPrefixOf t.str = true := by
          rw [show (decide (TokType.eString = TokType.eString)) = true from rfl,
              show (decide (TokType.eString = TokType.eChar)) = false from rfl] at hp2
          simpa using hp2
        obtain ⟨r, hrne, hsdec, hdrop⟩ := strip_decomp t.str p0 '\"' hp' (hbad p0 hmem).1
        have hlast := iscl_endsWith _ _ (cls_inv_str _ _ _ _ hE0')
        have hqr := strip_tail_ends t.str p0 r '\"' hsdec hrne hlast
        have hcfk1 := cfk_not_quote t.str '\"' (Or.inl rfl) hlast
        have hcfk2 := cfk_not_quote ('\"' :: r) '\"' (Or.inl rfl) hqr
        have hstdf := std_not_quote ('\"' :: r) '\"' (Or.inl rfl) hqr
        have hsD : ¬(¬ ('\"' :: r).length < 3 ∧ stdTypes.contains ('\"' :: r) = true) := by
          intro hcon
          rw [hstdf] at hcon
          exact absurd hcon.2 (by decide)
        have hlen2 : 1 < ('\"' :: r).length := by
          have h0 : 0 < r.length := List.length_pos.mpr hrne
          simp only [List.length_cons]
          omega
        have hcls2 : classifyStr ('\"' :: r) t.varId t.link.isSome TokType.eString = TokType.eString := by
          have h := cls_of_quote ('\"' :: r) t.varId t.link.isSome TokType.eString '\"' (Or.inl rfl) rfl hlen2 hqr
          rwa [if_pos rfl] at h
        have hc : classifyStr ('\"' :: r) t.varId t.link.isSome (classifyStr t.str t.varId t.link.isSome t.tokType) = classifyStr t.str t.varId t.link.isSome t.tokType := by
          rw [hE0']
          exact hcls2
        have hk2 : controlFlowKeywords.contains ('\"' :: r) = controlFlowKeywords.contains t.str := by
          rw [hcfk2, hcfk1]
        rw [upi_strip t p0 (Or.inl hE0) hf, hdrop, if_neg hsD]
        apply upi_fix
        · exact hc
        · exact hk2
        · exact rfl
        · exact fun h => absurd h hsD
        · apply lit_nofind
          apply find2_none
          exact Or.inl rfl
      · have hE0' : classifyStr t.str t.varId t.link.isSome t.tokType = TokType.eChar := hE0
        rw [hE0, clsStep_str] at hp2
        have hp' : (p0 ++ ['\'']).isPrefixOf t.str = true := by
          rw [show (decide (TokType.eChar = TokType.eString)) = false from rfl,
              show (decide (TokType.eChar = TokType.eChar)) = true from rfl] at hp2
          simpa using hp2
        obtain ⟨r, hrne, hsdec, hdrop⟩ := strip_decomp t.str p0 '\'' hp' (hbad p0 hmem).2
        have hlast := iscl_endsWith _ _ (cls_inv_char _ _ _ _ hE0')
        have hqr := strip_tail_ends t.str p0 r '\'' hsdec hrne hlast
        have hcfk1 := cfk_not_quote t.str '\'' (Or.inr rfl) hlast
        have hcfk2 := cfk_not_quote ('\'' :: r) '\'' (Or.inr rfl) hqr
        have hstdf := std_not_quote ('\'' :: r) '\'' (Or.inr rfl) hqr
        have hsD : ¬(¬ ('\'' :: r).length < 3 ∧ stdTypes.contains ('\'' :: r) = true) := by
          intro hcon
          rw [hstdf] at hcon
          exact absurd hcon.2 (by decide)
        have hlen2 : 1 < ('\'' :: r).length := by
          have h0 : 0 < r.length := List.length_pos.mpr hrne
          simp only [List.length_cons]
          omega
        have hcls2 : classifyStr ('\'' :: r) t.varId t.link.isSome TokType.eChar = TokType.eChar := by
          have h := cls_of_quote ('\'' :: r) t.varId t.link.isSome TokType.eChar '\'' (Or.inr rfl) rfl hlen2 hqr
          rwa [if_neg (by decide : ¬('\'' = '\"'))] at h
        have hc : classifyStr ('\'' :: r) t.varId t.link.isSome (classifyStr t.str t.varId t.link.isSome t.tokType) = classifyStr t.str t.varId t.link.isSome t.tokType := by
          rw [hE0']
          exact hcls2
        have hk2 : controlFlowKeywords.contains ('\'' :: r) = controlFlowKeywords.contains t.str := by
          rw [hcfk2, hcfk1]
        rw [upi_strip t p0 (Or.inr hE0) hf, hdrop, if_neg hsD]
        apply upi_fix
        · exact hc
        · exact hk2
        · exact rfl
        · exact fun h => absurd h hsD
        · apply lit_nofind
          apply find2_none
          exact Or.inr rfl

/-- Witness for C8: a concrete `L\"x\"` wide-string token satisfies the
hypothesis and `update_property_info` is idempotent on it. -/
theorem C8_update_property_info_idem_witness :
    (∀ p ∈ literalPrefixes, ("L\"x\"".toList) ≠ p ++ ['\"'] ∧ ("L\"x\"".toList) ≠ p ++ ['\'']) ∧
    update_property_info (update_property_info ({ str := ("L\"x\"".toList) } : TokNode)) =
      update_property_info ({ str := ("L\"x\"".toList) } : TokNode) :=
  ⟨by decide, C8_update_property_info_idem ({ str := ("L\"x\"".toList) } : TokNode) (by decide)⟩

/-- Counterexample to C8 as stated: on a token whose lexeme is exactly
`L\"`, the first `update_property_info` strips the `L` prefix leaving a
bare quote classified `eString`; the second call reclassifies it `eOther`,
so the second call is not a no-op. -/
theorem C8_counterexample :
    update_property_info (update_property_info tokLquote) ≠ update_property_info tokLquote := by
  decide

theorem mget_updTok_self (m : Mem) (i : Nat) (f : TokNode → TokNode) :
    mget (updTok m i f) i = (mget m i).map f := by
  induction m with
  | nil => rfl
  | cons hd tl ih =>
    obtain ⟨k, t⟩ := hd
    simp only [updTok, List.map_cons] at ih ⊢
    by_cases h : k = i
    · rw [h, if_pos rfl]
      simp only [mget]
      simp
    · rw [if_neg h]
      simp only [mget]
      rw [if_neg (show ¬ i = k from fun hh => h hh.symm),
          if_neg (show ¬ i = k from fun hh => h hh.symm)]
      exact ih

theorem mget_updTok_ne (m : Mem) (i j : Nat) (f : TokNode → TokNode) (h : j ≠ i) :
    mget (updTok m i f) j = mget m j := by
  induction m with
  | nil => rfl
  | cons hd tl ih =>
    obtain ⟨k, t⟩ := hd
    simp only [updTok, List.map_cons] at ih ⊢
    by_cases hk : k = i
    · rw [hk, if_pos rfl]
      simp only [mget]
      rw [if_neg (show ¬ j = i from h), if_neg (show ¬ j = i from h)]
      exact ih
    · rw [if_neg hk]
      simp only [mget]
      by_cases hjk : j = k
      · rw [if_pos hjk, if_pos hjk]
      · rw [if_neg hjk, if_neg hjk]
        exact ih

theorem mget_mdel_self (m : Mem) (i : Nat) : mget (mdel m i) i = none := by
  induction m with
  | nil => rfl
  | cons hd tl ih =>
    obtain ⟨k, t⟩ := hd
    simp only [mdel, List.filter_cons] at ih ⊢
    by_cases h : k = i
    · rw [h]
      simp only [bne_self_eq_false]
      rw [if_neg Bool.false_ne_true]
      exact ih
    · rw [if_pos (bne_iff_ne.mpr h)]
      simp only [mget]
      rw [if_neg (show ¬ i = k from fun hh => h hh.symm)]
      exact ih

theorem mget_mdel_ne (m : Mem) (i j : Nat) (h : j ≠ i) : mget (mdel m i) j = mget m j := by
  induction m with
  | nil => rfl
  | cons hd tl ih =>
    obtain ⟨k, t⟩ := hd
    simp only [mdel, List.filter_cons] at ih ⊢
    by_cases hk : k = i
    · rw [hk]
      simp only [bne_self_eq_false]
      rw [if_neg Bool.false_ne_true, ih]
      simp only [mget]
      rw [if_neg (show ¬ j = i from h)]
    · rw [if_pos (bne_iff_ne.mpr hk)]
      simp only [mget]
      by_cases hjk : j = k
      · rw [if_pos hjk, if_pos hjk]
      · rw [if_neg hjk, if_neg hjk]
        exact ih

theorem upi_str_empty (x : TokNode) (hx : x.str = []) : (update_property_info x).str = [] := by
  have hA : ¬((clsStep x).tokType = TokType.eString ∨ (clsStep x).tokType = TokType.eChar) := by
    have e : classifyStr x.str x.varId x.link.isSome x.tokType = TokType.eNone := by
      unfold classifyStr
      rw [if_pos hx]
    rw [clsStep_tokType, e]
    decide
  rw [upi_nolit x (lit_none _ hA)]
  exact hx

theorem blankThis_str (s : TStream) (i : Nat) (t : TokNode) (ht : mget s.mem i = some t) :
    (mget (Token.blankThis s i).mem i).map TokNode.str = some ([] : Str) := by
  simp only [Token.blankThis]
  rw [mget_updTok_self, ht]
  show some ((strAssign t []).str) = some ([] : Str)
  rw [show (strAssign t []).str = ([] : Str) from upi_str_empty _ rfl]

/-- C3 (corrected): `deleteThis` by cases.  (1) With a successor `n`, the
token takes over the successor's payload (str, kind, flags and the impl
state varId/values/origName) together with its bracket link, the
successor is destroyed, and a link peer of the successor distinct from
both tokens is rewired to point at self.  (2) With no successor, the code
requires a predecessor `p` that itself has a predecessor `pp`; then the
predecessor's payload and link are taken over, `p` is destroyed and its
link peer rewired to self.  (3) Otherwise — no successor and no
predecessor-of-predecessor, even when a predecessor exists — nothing is
deleted: the call reduces to the `str("")` fallback that blanks the
lexeme, leaving an empty placeholder. -/
theorem C3_deleteThis_cases (s : TStream) (i : Nat) (t : TokNode) (ht : mget s.mem i = some t) :
    (∀ n tn, t.nnext = some n → mget s.mem n = some tn → n ≠ i →
      (∀ j, tn.link = some j → j ≠ i ∧ j ≠ n ∧ (mget s.mem j).isSome = true) →
      ((mget (Token.deleteThis s i).mem i).map
          (fun u => (u.str, u.tokType, u.flags, u.varId, u.values, u.origName, u.link)) =
        some (tn.str, tn.tokType, tn.flags, tn.varId, tn.values, tn.origName, tn.link)) ∧
      mget (Token.deleteThis s i).mem n = none ∧
      (∀ j, tn.link = some j → getLinkId (Token.deleteThis s i).mem j = some i)) ∧
    (∀ p tp pp, t.nnext = none → t.nprev = some p → mget s.mem p = some tp → tp.nprev = some pp →
      p ≠ i →
      (∀ j, tp.link = some j → j ≠ i ∧ j ≠ p ∧ (mget s.mem j).isSome = true) →
      ((mget (Token.deleteThis s i).mem i).map
          (fun u => (u.str, u.tokType, u.flags, u.varId, u.values, u.origName, u.link)) =
        some (tp.str, tp.tokType, tp.flags, tp.varId, tp.values, tp.origName, tp.link)) ∧
      mget (Token.deleteThis s i).mem p = none ∧
      (∀ j, tp.link = some j → getLinkId (Token.deleteThis s i).mem j = some i)) ∧
    (t.nnext = none →
      (t.nprev = none ∨ ∃ p, t.nprev = some p ∧ (mget s.mem p).bind (fun q => q.nprev) = none) →
      Token.deleteThis s i = Token.blankThis s i ∧
      (mget (Token.deleteThis s i).mem i).map TokNode.str = some ([] : Str)) := by
  refine ⟨?_, ?_, ?_⟩
  · intro n tn hn htn hni hj
    have hin : i ≠ n := fun hh => hni hh.symm
    simp only [Token.deleteThis, ht, hn, Token.takeData, htn]
    cases hL : tn.link with
    | none =>
      have f_i : mget (setLinkF (updTok s.mem i (fun _ => { copyPayload t tn with link := none })) n none) i =
          some ({ copyPayload t tn with link := none }) := by
        simp only [setLinkF]
        rw [mget_updTok_ne _ n i _ hin, mget_updTok_self, ht]
        rfl
      have f_n : mget (setLinkF (updTok s.mem i (fun _ => { copyPayload t tn with link := none })) n none) n =
          some ({ tn with link := none }) := by
        simp only [setLinkF]
        rw [mget_updTok_self, mget_updTok_ne _ i n _ hni, htn]
        rfl
      have g1 : getNextId (setLinkF (updTok s.mem i (fun _ => { copyPayload t tn with link := none })) n none) i =
          some n := by
        simp only [getNextId]
        rw [f_i]
        exact hn
      have g2 : getLinkId (setLinkF (updTok s.mem i (fun _ => { copyPayload t tn with link := none })) n none) n =
          none := by
        simp only [getLinkId]
        rw [f_n]
        rfl
      have g3 : getNextId (setLinkF (updTok s.mem i (fun _ => { copyPayload t tn with link := none })) n none) n =
          tn.nnext := by
        simp only [getNextId]
        rw [f_n]
        rfl
      simp only [Token.deleteNext, Token.deleteNextLoop]
      rw [g1]
      simp only [Token.delNextStep]
      rw [g2, g3]
      have f3 : ∀ v : Option Nat,
          mget (mdel (setNextF (setLinkF (updTok s.mem i (fun _ => { copyPayload t tn with link := none })) n none) i v) n) i =
            some ({ copyPayload t tn with link := none, nnext := v }) := by
        intro v
        simp only [setNextF]
        rw [mget_mdel_ne _ n i hin, mget_updTok_self, f_i]
        rfl
      have g4 : getNextId (mdel (setNextF (setLinkF (updTok s.mem i (fun _ => { copyPayload t tn with link := none })) n none) i tn.nnext) n) i =
          tn.nnext := by
        simp only [getNextId]
        rw [f3 tn.nnext]
        rfl
      rw [g4]
      cases hnx : tn.nnext with
      | none =>
        refine ⟨?_, ?_, ?_⟩
        · rw [f3 none]
          rfl
        · exact mget_mdel_self _ n
        · intro j' hj'
          exact absurd hj' (by simp)
      | some nx =>
        refine ⟨?_, ?_, ?_⟩
        · by_cases hnxi : nx = i
          · simp only [setPrevF]
            rw [hnxi, mget_updTok_self, f3 (some i)]
            rfl
          · simp only [setPrevF]
            rw [mget_updTok_ne _ nx i _ (fun hh => hnxi hh.symm), f3 (some nx)]
            rfl
        · by_cases hnxn : nx = n
          · simp only [setPrevF]
            rw [hnxn, mget_updTok_self, mget_mdel_self]
            rfl
          · simp only [setPrevF]
            rw [mget_updTok_ne _ nx n _ (fun hh => hnxn hh.symm), mget_mdel_self]
        · intro j' hj'
          exact absurd hj' (by simp)
    | some j =>
      obtain ⟨hji, hjn, hjlive⟩ := hj j hL
      obtain ⟨tj, htj⟩ := Option.isSome_iff_exists.mp hjlive
      have hij : i ≠ j := Ne.symm hji
      have hnj : n ≠ j := Ne.symm hjn
      have f_i : mget (setLinkF (setLinkF (updTok s.mem i (fun _ => { copyPayload t tn with link := some j })) j (some i)) n none) i =
          some ({ copyPayload t tn with link := some j }) := by
        simp only [setLinkF]
        rw [mget_updTok_ne _ n i _ hin, mget_updTok_ne _ j i _ hij, mget_updTok_self, ht]
        rfl
      have f_n : mget (setLinkF (setLinkF (updTok s.mem i (fun _ => { copyPayload t tn with link := some j })) j (some i)) n none) n =
          some ({ tn with link := none }) := by
        simp only [setLinkF]
        rw [mget_updTok_self, mget_updTok_ne _ j n _ hnj, mget_updTok_ne _ i n _ hni, htn]
        rfl
      have f_j : mget (setLinkF (setLinkF (updTok s.mem i (fun _ => { copyPayload t tn with link := some j })) j (some i)) n none) j =
          some ({ tj with link := some i }) := by
        simp only [setLinkF]
        rw [mget_updTok_ne _ n j _ hjn, mget_updTok_self, mget_updTok_ne _ i j _ hji, htj]
        rfl
      have g1 : getNextId (setLinkF (setLinkF (updTok s.mem i (fun _ => { copyPayload t tn with link := some j })) j (some i)) n none) i =
          some n := by
        simp only [getNextId]
        rw [f_i]
        exact hn
      have g2 : getLinkId (setLinkF (setLinkF (updTok s.mem i (fun _ => { copyPayload t tn with link := some j })) j (some i)) n none) n =
          none := by
        simp only [getLinkId]
        rw [f_n]
        rfl
      have g3 : getNextId (setLinkF (setLinkF (updTok s.mem i (fun _ => { copyPayload t tn with link := some j })) j (some i)) n none) n =
          tn.nnext := by
        simp only [getNextId]
        rw [f_n]
        rfl
      simp only [Token.deleteNext, Token.deleteNextLoop]
      rw [g1]
      simp only [Token.delNextStep]
      rw [g2, g3]
      have f3 : ∀ v : Option Nat,
          mget (mdel (setNextF (setLinkF (setLinkF (updTok s.mem i (fun _ => { copyPayload t tn with link := some j })) j (some i)) n none) i v) n) i =
            some ({ copyPayload t tn with link := some j, nnext := v }) := by
        intro v
        simp only [setNextF]
        rw [mget_mdel_ne _ n i hin, mget_updTok_self, f_i]
        rfl
      have f3j : ∀ v : Option Nat,
          mget (mdel (setNextF (setLinkF (setLinkF (updTok s.mem i (fun _ => { copyPayload t tn with link := some j })) j (some i)) n none) i v) n) j =
            some ({ tj with link := some i }) := by
        intro v
        simp only [setNextF]
        rw [mget_mdel_ne _ n j hjn, mget_updTok_ne _ i j _ hji, f_j]
      have g4 : getNextId (mdel (setNextF (setLinkF (setLinkF (updTok s.mem i (fun _ => { copyPayload t tn with link := some j })) j (some i)) n none) i tn.nnext) n) i =
          tn.nnext := by
        simp only [getNextId]
        rw [f3 tn.nnext]
        rfl
      rw [g4]
      cases hnx : tn.nnext with
      | none =>
        refine ⟨?_, ?_, ?_⟩
        · rw [f3 none]
          rfl
        · exact mget_mdel_self _ n
        · intro j2 hj2
          injection hj2 with hjj
          subst hjj
          simp only [getLinkId]
          rw [f3j none]
          rfl
      | some nx =>
        refine ⟨?_, ?_, ?_⟩
        · by_cases hnxi : nx = i
          · simp only [setPrevF]
            rw [hnxi, mget_updTok_self, f3 (some i)]
            rfl
          · simp only [setPrevF]
            rw [mget_updTok_ne _ nx i _ (fun hh => hnxi hh.symm), f3 (some nx)]
            rfl
        · by_cases hnxn : nx = n
          · simp only [setPrevF]
            rw [hnxn, mget_updTok_self, mget_mdel_self]
            rfl
          · simp only [setPrevF]
            rw [mget_updTok_ne _ nx n _ (fun hh => hnxn hh.symm), mget_mdel_self]
        · intro j2 hj2
          injection hj2 with hjj
          subst hjj
          simp only [getLinkId, setPrevF]
          by_cases hnxj : nx = j
          · rw [hnxj, mget_updTok_self, f3j (some j)]
            rfl
          · rw [mget_updTok_ne _ nx j _ (fun hh => hnxj hh.symm), f3j (some nx)]
            rfl
  · intro p tp pp hn0 hp htp hpp hpi hj
    have hip : i ≠ p := Ne.symm hpi
    simp only [Token.deleteThis, ht, hn0, hp, Token.takeData, htp, Option.some_bind, hpp]
    cases hL : tp.link with
    | none =>
      have f_i : mget (updTok s.mem i (fun _ => { copyPayload t tp with link := none })) i =
          some ({ copyPayload t tp with link := none }) := by
        rw [mget_updTok_self, ht]
        rfl
      refine ⟨?_, ?_, ?_⟩
      · simp only [setPrevF, setNextF]
        rw [mget_mdel_ne _ p i hip]
        by_cases hppi : pp = i
        · rw [hppi, mget_updTok_self, mget_updTok_self, f_i]
          rfl
        · rw [mget_updTok_ne _ pp i _ (fun hh => hppi hh.symm), mget_updTok_self, f_i]
          rfl
      · exact mget_mdel_self _ p
      · intro j2 hj2
        exact absurd hj2 (by simp)
    | some j =>
      obtain ⟨hji, hjp, hjlive⟩ := hj j hL
      obtain ⟨tj, htj⟩ := Option.isSome_iff_exists.mp hjlive
      have hij : i ≠ j := Ne.symm hji
      have hpj : p ≠ j := Ne.symm hjp
      have f_i : mget (setLinkF (updTok s.mem i (fun _ => { copyPayload t tp with link := some j })) j (some i)) i =
          some ({ copyPayload t tp with link := some j }) := by
        simp only [setLinkF]
        rw [mget_updTok_ne _ j i _ hij, mget_updTok_self, ht]
        rfl
      have f_j : mget (setLinkF (updTok s.mem i (fun _ => { copyPayload t tp with link := some j })) j (some i)) j =
          some ({ tj with link := some i }) := by
        simp only [setLinkF]
        rw [mget_updTok_self, mget_updTok_ne _ i j _ hji, htj]
        rfl
      refine ⟨?_, ?_, ?_⟩
      · simp only [setPrevF, setNextF]
        rw [mget_mdel_ne _ p i hip]
        by_cases hppi : pp = i
        · rw [hppi, mget_updTok_self, mget_updTok_self, f_i]
          rfl
        · rw [mget_updTok_ne _ pp i _ (fun hh => hppi hh.symm), mget_updTok_self, f_i]
          rfl
      · exact mget_mdel_self _ p
      · intro j2 hj2
        injection hj2 with hjj
        subst hjj
        simp only [getLinkId, setPrevF, setNextF]
        rw [mget_mdel_ne _ p j hjp]
        by_cases hppj : pp = j
        · rw [hppj, mget_updTok_self, mget_updTok_ne _ i j _ hji, f_j]
          rfl
        · rw [mget_updTok_ne _ pp j _ (fun hh => hppj hh.symm), mget_updTok_ne _ i j _ hji, f_j]
          rfl
  · intro hn0 hcond
    have hEq : Token.deleteThis s i = Token.blankThis s i := by
      rcases hcond with hpn | ⟨p, hp, hbp⟩
      · simp only [Token.deleteThis, ht, hn0, hpn]
      · rcases hq : mget s.mem p with _ | tp
        · simp only [Token.deleteThis, ht, hn0, hp, hq, Option.none_bind]
        · have hpp : tp.nprev = none := by
            rw [hq] at hbp
            exact hbp
          simp only [Token.deleteThis, ht, hn0, hp, hq, Option.some_bind, hpp]
    exact ⟨hEq, by rw [hEq]; exact blankThis_str s i t ht⟩

/-- Witness for C3: deleting the `(` of the stream `( x )` at a live
successor `x`: the receiver takes over the payload of `x`, the `x` node
is destroyed, and the (absent) peer condition holds vacuously. -/
theorem C3_deleteThis_cases_witness :
    ((mget (Token.deleteThis exPar 0).mem 0).map
        (fun u => (u.str, u.tokType, u.flags, u.varId, u.values, u.origName, u.link)) =
      some (("x".toList), TokType.eName, ({} : Flags), 0, (none : Option (List ValueFlow.Value)), ([] : Str), (none : Option Nat))) ∧
    mget (Token.deleteThis exPar 0).mem 1 = none ∧
    (∀ j, (none : Option Nat) = some j → getLinkId (Token.deleteThis exPar 0).mem j = some 0) :=
  (C3_deleteThis_cases exPar 0
      { str := ("(".toList), tokType := TokType.eBracket, link := some 2, nnext := some 1 }
      (by decide)).1 1
    { str := ("x".toList), tokType := TokType.eName, nprev := some 0, nnext := some 2 }
    rfl (by decide) (by decide) (fun j h => nomatch h)

/-- Counterexample to C3 as stated: in the stream `a b`, the token `b`
has a predecessor but no successor, yet `deleteThis` does not copy the
predecessor in and delete it — the predecessor (the list head) has no
predecessor of its own, so the code falls through to the blank-`str`
case: `a` survives and `b` becomes the empty placeholder. -/
theorem C3_counterexample :
    ((mget exTwo.mem 1).map TokNode.nnext = some none) ∧
    ((mget exTwo.mem 1).map TokNode.nprev = some (some 0)) ∧
    (mget (Token.deleteThis exTwo 1).mem 0).isSome = true ∧
    ((mget (Token.deleteThis exTwo 1).mem 1).map TokNode.str = some ([] : Str)) := by
  decide

theorem mget_cons (a : Nat) (x : TokNode) (m : Mem) (k : Nat) :
    mget ((a, x) :: m) k = if k = a then some x else mget m k := rfl

theorem getLinkId_updTok_linkpres (m : Mem) (i : Nat) (f : TokNode → TokNode)
    (hf : ∀ x, (f x).link = x.link) (k : Nat) :
    getLinkId (updTok m i f) k = getLinkId m k := by
  unfold getLinkId
  by_cases h : k = i
  · rw [h, mget_updTok_self]
    cases mget m i with
    | none => rfl
    | some x =>
      show (f x).link = x.link
      exact hf x
  · rw [mget_updTok_ne _ i k _ h]

theorem getLinkId_setLinkF_self (m : Mem) (a : Nat) (v : Option Nat) (x : TokNode)
    (ha : mget m a = some x) :
    getLinkId (setLinkF m a v) a = v := by
  unfold getLinkId setLinkF
  rw [mget_updTok_self, ha]
  rfl

theorem getLinkId_setLinkF_none (m : Mem) (a : Nat) :
    getLinkId (setLinkF m a none) a = none := by
  unfold getLinkId setLinkF
  rw [mget_updTok_self]
  cases mget m a <;> rfl

theorem getLinkId_setLinkF_ne (m : Mem) (a : Nat) (v : Option Nat) (k : Nat) (h : k ≠ a) :
    getLinkId (setLinkF m a v) k = getLinkId m k := by
  unfold getLinkId setLinkF
  rw [mget_updTok_ne _ a k _ h]

theorem getLinkId_setNextF (m : Mem) (a : Nat) (v : Option Nat) (k : Nat) :
    getLinkId (setNextF m a v) k = getLinkId m k :=
  getLinkId_updTok_linkpres m a (fun t => { t with nnext := v }) (fun _ => rfl) k

theorem getLinkId_setPrevF (m : Mem) (a : Nat) (v : Option Nat) (k : Nat) :
    getLinkId (setPrevF m a v) k = getLinkId m k :=
  getLinkId_updTok_linkpres m a (fun t => { t with nprev := v }) (fun _ => rfl) k

theorem getLinkId_mdel_self (m : Mem) (d : Nat) : getLinkId (mdel m d) d = none := by
  unfold getLinkId
  rw [mget_mdel_self]
  rfl

theorem getLinkId_mdel_ne (m : Mem) (d k : Nat) (h : k ≠ d) :
    getLinkId (mdel m d) k = getLinkId m k := by
  unfold getLinkId
  rw [mget_mdel_ne _ d k h]

theorem LinkSym_of_desc (m' : Mem) (F : Nat → Option Nat)
    (hdesc : ∀ k, getLinkId m' k = F k)
    (hsym : ∀ k j, F k = some j → F j = some k) : LinkSym m' := by
  intro k j hkj
  rw [hdesc] at hkj
  rw [hdesc]
  exact hsym k j hkj

theorem LinkSym_of_eqLinks (m m' : Mem) (h : ∀ k, getLinkId m' k = getLinkId m k)
    (hs : LinkSym m) : LinkSym m' :=
  LinkSym_of_desc m' (getLinkId m) h hs

theorem mget_mem (m : Mem) (k : Nat) (t : TokNode) (h : mget m k = some t) : (k, t) ∈ m := by
  induction m with
  | nil => cases h
  | cons hd tl ih =>
    obtain ⟨a, x⟩ := hd
    simp only [mget] at h
    by_cases hk : k = a
    · rw [if_pos hk] at h
      injection h with h2
      rw [hk, h2]
      exact List.mem_cons_self _ _
    · rw [if_neg hk] at h
      exact List.mem_cons_of_mem _ (ih h)

theorem linkSymb_sound (m : Mem) (h : linkSymB m = true) : LinkSym m := by
  intro k j hkj
  unfold getLinkId at hkj
  cases hmk : mget m k with
  | none => rw [hmk] at hkj; cases hkj
  | some t =>
    rw [hmk] at hkj
    have htl : t.link = some j := hkj
    have hall := List.all_eq_true.mp h (k, t) (mget_mem m k t hmk)
    simp only [linkSymB] at hall
    rw [htl] at hall
    exact eq_of_beq hall

theorem getLinkId_setLinkF_live (m : Mem) (a : Nat) (v : Option Nat)
    (ha : (mget m a).isSome = true) : getLinkId (setLinkF m a v) a = v := by
  obtain ⟨x, hx⟩ := Option.isSome_iff_exists.mp ha
  exact getLinkId_setLinkF_self m a v x hx

theorem delNextStep_linkSym (m : Mem) (self n : Nat) (hs : LinkSym m) :
    LinkSym (Token.delNextStep m self n) := by
  cases hLn : getLinkId m n with
  | none =>
    simp only [Token.delNextStep, hLn]
    intro k j hkj
    by_cases hkn : k = n
    · rw [hkn, getLinkId_mdel_self] at hkj
      cases hkj
    · rw [getLinkId_mdel_ne _ n k hkn, getLinkId_setNextF] at hkj
      have h2 := hs k j hkj
      have hjn : j ≠ n := by
        intro hh
        rw [hh] at hkj
        have h3 := hs k n hkj
        rw [hLn] at h3
        cases h3
      rw [getLinkId_mdel_ne _ n j hjn, getLinkId_setNextF]
      exact h2
  | some d =>
    have hdn : getLinkId m d = some n := hs n d hLn
    simp only [Token.delNextStep, hLn]
    rw [if_pos hdn]
    intro k j hkj
    by_cases hkn : k = n
    · rw [hkn, getLinkId_mdel_self] at hkj
      cases hkj
    · rw [getLinkId_mdel_ne _ n k hkn, getLinkId_setNextF] at hkj
      by_cases hkd : k = d
      · rw [hkd, getLinkId_setLinkF_none] at hkj
        cases hkj
      · rw [getLinkId_setLinkF_ne _ d none k hkd] at hkj
        have h2 := hs k j hkj
        have hjn : j ≠ n := by
          intro hh
          rw [hh] at hkj
          have h3 := hs k n hkj
          rw [hLn] at h3
          injection h3 with h4
          exact hkd h4.symm
        have hjd : j ≠ d := by
          intro hh
          rw [hh] at h2
          rw [hdn] at h2
          injection h2 with h4
          exact hkn h4.symm
        rw [getLinkId_mdel_ne _ n j hjn, getLinkId_setNextF,
            getLinkId_setLinkF_ne _ d none j hjd]
        exact h2

theorem deleteNextLoop_linkSym (c : Nat) (m : Mem) (self : Nat) (hs : LinkSym m) :
    LinkSym (Token.deleteNextLoop c m self) := by
  induction c generalizing m with
  | zero => exact hs
  | succ c ih =>
    cases hg : getNextId m self with
    | none =>
      simp only [Token.deleteNextLoop, hg]
      exact hs
    | some n =>
      simp only [Token.deleteNextLoop, hg]
      exact ih _ (delNextStep_linkSym m self n hs)

theorem deleteNext_linkSym (s : TStream) (i count : Nat) (hs : LinkSym s.mem) :
    LinkSym (Token.deleteNext s i count).mem := by
  have h1 := deleteNextLoop_linkSym count s.mem i hs
  unfold Token.deleteNext
  cases hg : getNextId (Token.deleteNextLoop count s.mem i) i with
  | none =>
    simp only [hg]
    exact h1
  | some nx =>
    simp only [hg]
    exact LinkSym_of_eqLinks _ _ (fun k => getLinkId_setPrevF _ _ _ k) h1

theorem delPrevStep_linkSym (m : Mem) (self p : Nat) (hs : LinkSym m) :
    LinkSym (Token.delPrevStep m self p) := by
  cases hLp : getLinkId m p with
  | none =>
    simp only [Token.delPrevStep, hLp]
    intro k j hkj
    by_cases hkp : k = p
    · rw [hkp, getLinkId_mdel_self] at hkj
      cases hkj
    · rw [getLinkId_mdel_ne _ p k hkp, getLinkId_setPrevF] at hkj
      have h2 := hs k j hkj
      have hjp : j ≠ p := by
        intro hh
        rw [hh] at hkj
        have h3 := hs k p hkj
        rw [hLp] at h3
        cases h3
      rw [getLinkId_mdel_ne _ p j hjp, getLinkId_setPrevF]
      exact h2
  | some d =>
    have hdp : getLinkId m d = some p := hs p d hLp
    simp only [Token.delPrevStep, hLp]
    rw [if_pos hdp]
    intro k j hkj
    by_cases hkp : k = p
    · rw [hkp, getLinkId_mdel_self] at hkj
      cases hkj
    · rw [getLinkId_mdel_ne _ p k hkp, getLinkId_setPrevF] at hkj
      by_cases hkd : k = d
      · rw [hkd, getLinkId_setLinkF_none] at hkj
        cases hkj
      · rw [getLinkId_setLinkF_ne _ d none k hkd] at hkj
        have h2 := hs k j hkj
        have hjp : j ≠ p := by
          intro hh
          rw [hh] at hkj
          have h3 := hs k p hkj
          rw [hLp] at h3
          injection h3 with h4
          exact hkd h4.symm
        have hjd : j ≠ d := by
          intro hh
          rw [hh] at h2
          rw [hdp] at h2
          injection h2 with h4
          exact hkp h4.symm
        rw [getLinkId_mdel_ne _ p j hjp, getLinkId_setPrevF,
            getLinkId_setLinkF_ne _ d none j hjd]
        exact h2

theorem deletePreviousLoop_linkSym (c : Nat) (m : Mem) (self : Nat) (hs : LinkSym m) :
    LinkSym (Token.deletePreviousLoop c m self) := by
  induction c generalizing m with
  | zero => exact hs
  | succ c ih =>
    cases hg : getPrevId m self with
    | none =>
      simp only [Token.deletePreviousLoop, hg]
      exact hs
    | some p =>
      simp only [Token.deletePreviousLoop, hg]
      exact ih _ (delPrevStep_linkSym m self p hs)

theorem deletePrevious_linkSym (s : TStream) (i count : Nat) (hs : LinkSym s.mem) :
    LinkSym (Token.deletePrevious s i count).mem := by
  have h1 := deletePreviousLoop_linkSym count s.mem i hs
  unfold Token.deletePrevious
  cases hg : getPrevId (Token.deletePreviousLoop count s.mem i) i with
  | none =>
    simp only [hg]
    exact h1
  | some pv =>
    simp only [hg]
    exact LinkSym_of_eqLinks _ _ (fun k => getLinkId_setNextF _ _ _ k) h1

theorem upi_link (x : TokNode) : (update_property_info x).link = x.link := by
  rw [upi_eq2, stdT_eq]
  show (update_property_char_string_literal (clsStep x)).link = x.link
  unfold update_property_char_string_literal
  by_cases h : ¬((clsStep x).tokType = TokType.eString ∨ (clsStep x).tokType = TokType.eChar)
  · rw [if_pos h]
    rfl
  · rw [if_neg h]
    cases hf : literalPrefixes.find? (fun p =>
      (decide ((clsStep x).tokType = TokType.eString) && (p ++ ['\"']).isPrefixOf (clsStep x).str) ||
      (decide ((clsStep x).tokType = TokType.eChar) && (p ++ ['\'']).isPrefixOf (clsStep x).str)) with
    | none => rfl
    | some p0 => rfl

theorem strAssign_link (x : TokNode) (s2 : Str) : (strAssign x s2).link = x.link := by
  unfold strAssign
  rw [upi_link]

theorem createMutualLinks_linkSym (m : Mem) (a b : Nat) (ta tb : TokNode) (hab : a ≠ b)
    (hta : mget m a = some ta) (htb : mget m b = some tb)
    (hLa : getLinkId m a = none) (hLb : getLinkId m b = none) (hs : LinkSym m) :
    LinkSym (Token.createMutualLinks m a b) := by
  apply LinkSym_of_desc _ (fun k => if k = b then some a else if k = a then some b else getLinkId m k)
  · intro k
    show getLinkId (Token.createMutualLinks m a b) k =
      if k = b then some a else if k = a then some b else getLinkId m k
    unfold Token.createMutualLinks
    by_cases hkb : k = b
    · rw [if_pos hkb, hkb]
      have hb2 : mget (setLinkF m a (some b)) b = some tb := by
        unfold setLinkF
        rw [mget_updTok_ne _ a b _ (Ne.symm hab)]
        exact htb
      exact getLinkId_setLinkF_self _ b (some a) tb hb2
    · rw [if_neg hkb]
      by_cases hka : k = a
      · rw [if_pos hka, hka, getLinkId_setLinkF_ne _ b (some a) a hab]
        exact getLinkId_setLinkF_self _ a (some b) ta hta
      · rw [if_neg hka, getLinkId_setLinkF_ne _ b _ k hkb, getLinkId_setLinkF_ne _ a _ k hka]
  · intro k j hkj
    by_cases hkb : k = b
    · subst hkb
      rw [if_pos rfl] at hkj
      injection hkj with h2
      subst h2
      rw [if_neg hab, if_pos rfl]
    · rw [if_neg hkb] at hkj
      by_cases hka : k = a
      · subst hka
        rw [if_pos rfl] at hkj
        injection hkj with h2
        subst h2
        rw [if_pos rfl]
      · rw [if_neg hka] at hkj
        have hjb : j ≠ b := by
          intro hh
          rw [hh] at hkj
          have h3 := hs k b hkj
          rw [hLb] at h3
          cases h3
        have hja : j ≠ a := by
          intro hh
          rw [hh] at hkj
          have h3 := hs k a hkj
          rw [hLa] at h3
          cases h3
        rw [if_neg hjb, if_neg hja]
        exact hs k j hkj

theorem key_le_fold (l : List Nat) (x : Nat) (hx : x ∈ l) : x ≤ l.foldr Nat.max 0 := by
  induction l with
  | nil => cases hx
  | cons a tl ih =>
    rcases List.mem_cons.mp hx with rfl | hx2
    · rw [List.foldr_cons]
      exact Nat.le_max_left _ _
    · refine le_trans (ih hx2) ?_
      rw [List.foldr_cons]
      exact Nat.le_max_right _ _

theorem mget_big (m : Mem) (k : Nat) (hk : ∀ q ∈ m, q.1 < k) : mget m k = none := by
  induction m with
  | nil => rfl
  | cons hd tl ih =>
    obtain ⟨a, x⟩ := hd
    simp only [mget]
    rw [if_neg (show ¬ k = a from fun hh => by
      have := hk (a, x) (List.mem_cons_self _ _)
      rw [hh] at this
      exact lt_irrefl a this)]
    apply ih
    intro q hq
    exact hk q (List.mem_cons_of_mem _ hq)

theorem mget_freshId (m : Mem) : mget m (Token.freshId m) = none := by
  apply mget_big
  intro q hq
  have h1 : q.1 ≤ (m.map (fun p => p.1)).foldr Nat.max 0 :=
    key_le_fold _ _ (List.mem_map_of_mem _ hq)
  unfold Token.freshId
  omega

theorem insertToken_linkSym (s : TStream) (i : Nat) (tokenStr origNameStr : Str)
    (prepend : Bool) (hs : LinkSym s.mem) :
    LinkSym (Token.insertToken s i tokenStr origNameStr prepend).mem := by
  unfold Token.insertToken
  cases hti : mget s.mem i with
  | none =>
    simp only []
    exact hs
  | some t =>
    simp only []
    by_cases hte : t.str = []
    · rw [if_pos hte]
      show LinkSym (updTok s.mem i (fun t0 =>
        if origNameStr ≠ [] then
          ({ strAssign t0 tokenStr with origName := origNameStr } : TokNode)
        else strAssign t0 tokenStr))
      refine LinkSym_of_eqLinks s.mem _ (fun k => getLinkId_updTok_linkpres s.mem i _ ?_ k) hs
      intro x
      show (if origNameStr ≠ [] then
          ({ strAssign x tokenStr with origName := origNameStr } : TokNode)
        else strAssign x tokenStr).link = x.link
      by_cases ho : origNameStr ≠ []
      · rw [if_pos ho]
        exact strAssign_link x tokenStr
      · rw [if_neg ho]
        exact strAssign_link x tokenStr
    · rw [if_neg hte]
      have hnl : (if origNameStr ≠ [] then
          ({ strAssign Token.emptyTok tokenStr with origName := origNameStr } : TokNode)
        else strAssign Token.emptyTok tokenStr).link = none := by
        by_cases ho : origNameStr ≠ []
        · rw [if_pos ho]
          exact strAssign_link Token.emptyTok tokenStr
        · rw [if_neg ho]
          exact strAssign_link Token.emptyTok tokenStr
      have h0 : ∀ k, getLinkId ((Token.freshId s.mem,
          (if origNameStr ≠ [] then
            ({ strAssign Token.emptyTok tokenStr with origName := origNameStr } : TokNode)
          else strAssign Token.emptyTok tokenStr)) :: s.mem) k =
          (if k = Token.freshId s.mem then none else getLinkId s.mem k) := by
        intro k
        unfold getLinkId
        rw [mget_cons]
        by_cases hk : k = Token.freshId s.mem
        · rw [if_pos hk, if_pos hk]
          show (if origNameStr ≠ [] then
              ({ strAssign Token.emptyTok tokenStr with origName := origNameStr } : TokNode)
            else strAssign Token.emptyTok tokenStr).link = none
          exact hnl
        · rw [if_neg hk, if_neg hk]
      have hFsym : ∀ k j, (if k = Token.freshId s.mem then none else getLinkId s.mem k) = some j →
          (if j = Token.freshId s.mem then none else getLinkId s.mem j) = some k := by
        intro k j hkj
        by_cases hk : k = Token.freshId s.mem
        · rw [if_pos hk] at hkj
          cases hkj
        · rw [if_neg hk] at hkj
          have hjf : j ≠ Token.freshId s.mem := by
            intro hh
            rw [hh] at hkj
            have h3 := hs k (Token.freshId s.mem) hkj
            unfold getLinkId at h3
            rw [mget_freshId] at h3
            cases h3
          rw [if_neg hjf]
          exact hs k j hkj
      cases hb : prepend with
      | true =>
        rw [if_pos rfl]
        cases hpv : t.nprev with
        | some pv =>
          refine LinkSym_of_desc _ _ (fun k => ?_) hFsym
          rw [getLinkId_setNextF, getLinkId_setPrevF, getLinkId_setNextF, getLinkId_setPrevF]
          exact h0 k
        | none =>
          refine LinkSym_of_desc _ _ (fun k => ?_) hFsym
          rw [getLinkId_setNextF, getLinkId_setPrevF]
          exact h0 k
      | false =>
        rw [if_neg (by simp)]
        cases hnx : t.nnext with
        | some nx =>
          refine LinkSym_of_desc _ _ (fun k => ?_) hFsym
          rw [getLinkId_setPrevF, getLinkId_setNextF, getLinkId_setPrevF, getLinkId_setNextF]
          exact h0 k
        | none =>
          refine LinkSym_of_desc _ _ (fun k => ?_) hFsym
          rw [getLinkId_setPrevF, getLinkId_setNextF]
          exact h0 k

theorem live_of_link (m : Mem) (k j : Nat) (h : getLinkId m k = some j) :
    ∃ x, mget m k = some x := by
  unfold getLinkId at h
  cases hm : mget m k with
  | none => rw [hm] at h; cases h
  | some x => exact ⟨x, rfl⟩

theorem swapWithNext_linkSym (m : Mem) (i : Nat) (hsf : getNextId m i ≠ some i)
    (hs : LinkSym m) : LinkSym (Token.swapWithNext m i) := by
  unfold Token.swapWithNext
  cases hti : mget m i with
  | none =>
    simp only []
    exact hs
  | some t =>
    simp only []
    cases htn : t.nnext with
    | none =>
      simp only [htn]
      exact hs
    | some n =>
      simp only [htn]
      have hni : n ≠ i := by
        intro hh
        apply hsf
        unfold getNextId
        rw [hti]
        show t.nnext = some i
        rw [htn, hh]
      have hin : i ≠ n := Ne.symm hni
      cases htu : mget m n with
      | none =>
        simp only [htu]
        exact hs
      | some u =>
        simp only [htu]
        set A := updTok (updTok m i (fun a => copyPayload a u)) n (fun b => copyPayload b t) with hA
        have e0 : ∀ k, getLinkId A k = getLinkId m k := by
          intro k
          rw [hA, getLinkId_updTok_linkpres _ n (fun b => copyPayload b t) (fun x => rfl) k,
              getLinkId_updTok_linkpres _ i (fun a => copyPayload a u) (fun x => rfl) k]
        have mi : mget A i = some (copyPayload t u) := by
          rw [hA, mget_updTok_ne _ n i _ hin, mget_updTok_self, hti]
          rfl
        have mn : mget A n = some (copyPayload u t) := by
          rw [hA, mget_updTok_self, mget_updTok_ne _ i n _ hni, htu]
          rfl
        rw [e0 n]
        cases hLn : getLinkId m n with
        | none =>
          rw [e0 i]
          cases hLi : getLinkId m i with
          | none =>
            rw [e0 n, e0 i, hLn, hLi]
            refine LinkSym_of_eqLinks m _ (fun k => ?_) hs
            by_cases hkn : k = n
            · rw [hkn, getLinkId_setLinkF_none, hLn]
            · rw [getLinkId_setLinkF_ne _ n _ k hkn]
              by_cases hki : k = i
              · rw [hki, getLinkId_setLinkF_none, hLi]
              · rw [getLinkId_setLinkF_ne _ i _ k hki]
                exact e0 k
          | some c =>
            have hci : getLinkId m c = some i := hs i c hLi
            have hcn : c ≠ n := by
              intro hh
              rw [hh, hLn] at hci
              cases hci
            by_cases hcieq : c = i
            · -- self-linked i
              rw [hcieq]
              have g2n : getLinkId (setLinkF A i (some n)) n = getLinkId m n := by
                rw [getLinkId_setLinkF_ne _ i _ n hni, e0 n]
              have g2i : getLinkId (setLinkF A i (some n)) i = some n :=
                getLinkId_setLinkF_self _ i (some n) _ mi
              rw [g2n, g2i, hLn]
              apply LinkSym_of_desc _ (fun k =>
                if k = n then some n else if k = i then none else getLinkId m k)
              · intro k
                simp only []
                by_cases hkn : k = n
                · rw [hkn, if_pos rfl]
                  have : mget (setLinkF (setLinkF A i (some n)) i none) n = some (copyPayload u t) := by
                    unfold setLinkF
                    rw [mget_updTok_ne _ i n _ hni, mget_updTok_ne _ i n _ hni]
                    exact mn
                  exact getLinkId_setLinkF_self _ n (some n) _ this
                · rw [if_neg hkn, getLinkId_setLinkF_ne _ n _ k hkn]
                  by_cases hki : k = i
                  · rw [hki, if_pos rfl, getLinkId_setLinkF_none]
                  · rw [if_neg hki, getLinkId_setLinkF_ne _ i _ k hki,
                        getLinkId_setLinkF_ne _ i _ k hki]
                    exact e0 k
              · intro k j hkj
                by_cases hkn : k = n
                · rw [hkn, if_pos rfl] at hkj
                  injection hkj with h2
                  rw [← h2, if_pos rfl]
                  rw [hkn]
                · rw [if_neg hkn] at hkj
                  by_cases hki : k = i
                  · rw [hki, if_pos rfl] at hkj
                    cases hkj
                  · rw [if_neg hki] at hkj
                    have hjn : j ≠ n := by
                      intro hh
                      rw [hh] at hkj
                      have h3 := hs k n hkj
                      rw [hLn] at h3
                      cases h3
                    have hji : j ≠ i := by
                      intro hh
                      rw [hh] at hkj
                      have h3 := hs k i hkj
                      rw [hLi] at h3
                      injection h3 with h4
                      rw [hcieq] at h4
                      exact hki h4.symm
                    rw [if_neg hjn, if_neg hji]
                    exact hs k j hkj
            · -- c distinct from i and n
              obtain ⟨tc, htc⟩ := live_of_link m c i hci
              have mc : mget A c = some tc := by
                rw [hA, mget_updTok_ne _ n c _ hcn, mget_updTok_ne _ i c _ hcieq]
                exact htc
              have g2n : getLinkId (setLinkF A c (some n)) n = getLinkId m n := by
                rw [getLinkId_setLinkF_ne _ c _ n (Ne.symm hcn), e0 n]
              have g2i : getLinkId (setLinkF A c (some n)) i = getLinkId m i := by
                rw [getLinkId_setLinkF_ne _ c _ i (Ne.symm hcieq), e0 i]
              rw [g2n, g2i, hLn, hLi]
              apply LinkSym_of_desc _ (fun k =>
                if k = n then some c else if k = i then none
                else if k = c then some n else getLinkId m k)
              · intro k
                simp only []
                by_cases hkn : k = n
                · rw [hkn, if_pos rfl]
                  have : mget (setLinkF (setLinkF A c (some n)) i none) n = some (copyPayload u t) := by
                    unfold setLinkF
                    rw [mget_updTok_ne _ i n _ hni, mget_updTok_ne _ c n _ (Ne.symm hcn)]
                    exact mn
                  exact getLinkId_setLinkF_self _ n (some c) _ this
                · rw [if_neg hkn, getLinkId_setLinkF_ne _ n _ k hkn]
                  by_cases hki : k = i
                  · rw [hki, if_pos rfl, getLinkId_setLinkF_none]
                  · rw [if_neg hki, getLinkId_setLinkF_ne _ i _ k hki]
                    by_cases hkc : k = c
                    · rw [hkc, if_pos rfl]
                      exact getLinkId_setLinkF_self _ c (some n) _ mc
                    · rw [if_neg hkc, getLinkId_setLinkF_ne _ c _ k hkc]
                      exact e0 k
              · intro k j hkj
                by_cases hkn : k = n
                · rw [hkn, if_pos rfl] at hkj
                  injection hkj with h2
                  rw [← h2, if_neg hcn, if_neg hcieq, if_pos rfl]
                  rw [hkn]
                · rw [if_neg hkn] at hkj
                  by_cases hki : k = i
                  · rw [hki, if_pos rfl] at hkj
                    cases hkj
                  · rw [if_neg hki] at hkj
                    by_cases hkc : k = c
                    · rw [hkc, if_pos rfl] at hkj
                      injection hkj with h2
                      rw [← h2, if_pos rfl]
                      rw [hkc]
                    · rw [if_neg hkc] at hkj
                      have hjn : j ≠ n := by
                        intro hh
                        rw [hh] at hkj
                        have h3 := hs k n hkj
                        rw [hLn] at h3
                        cases h3
                      have hji : j ≠ i := by
                        intro hh
                        rw [hh] at hkj
                        have h3 := hs k i hkj
                        rw [hLi] at h3
                        injection h3 with h4
                        exact hkc h4.symm
                      have hjc : j ≠ c := by
                        intro hh
                        rw [hh] at hkj
                        have h3 := hs k c hkj
                        rw [hci] at h3
                        injection h3 with h4
                        exact hki h4.symm
                      rw [if_neg hjn, if_neg hji, if_neg hjc]
                      exact hs k j hkj
        | some d =>
          have hdn : getLinkId m d = some n := hs n d hLn
          obtain ⟨td, htd⟩ := live_of_link m d n hdn
          by_cases hdi : d = i
          · rw [hdi]
            have hLn2 : getLinkId m n = some i := by rw [← hdi]; exact hLn
            have hLi2 : getLinkId m i = some n := by rw [← hdi]; exact hdn
            have g1i : getLinkId (setLinkF A i (some i)) i = some i :=
              getLinkId_setLinkF_self _ i (some i) (copyPayload t u) mi
            rw [g1i]
            have g2n : getLinkId (setLinkF (setLinkF A i (some i)) i (some n)) n = some i := by
              rw [getLinkId_setLinkF_ne _ i _ n hni, getLinkId_setLinkF_ne _ i _ n hni, e0 n, hLn2]
            have g2i : getLinkId (setLinkF (setLinkF A i (some i)) i (some n)) i = some n :=
              getLinkId_setLinkF_self _ i (some n) _
                (by unfold setLinkF; rw [mget_updTok_self, mi]; rfl)
            rw [g2n, g2i]
            apply LinkSym_of_desc _ (fun k =>
              if k = n then some n else if k = i then some i else getLinkId m k)
            · intro k
              simp only []
              by_cases hkn : k = n
              · rw [hkn, if_pos rfl]
                refine getLinkId_setLinkF_live _ n (some n) ?_
                unfold setLinkF
                rw [mget_updTok_ne _ i n _ hni, mget_updTok_ne _ i n _ hni,
                    mget_updTok_ne _ i n _ hni]
                rw [mn]
                rfl
              · rw [if_neg hkn, getLinkId_setLinkF_ne _ n _ k hkn]
                by_cases hki : k = i
                · rw [hki, if_pos rfl]
                  refine getLinkId_setLinkF_live _ i (some i) ?_
                  unfold setLinkF
                  rw [mget_updTok_self, mget_updTok_self, mi]
                  rfl
                · rw [if_neg hki, getLinkId_setLinkF_ne _ i _ k hki,
                      getLinkId_setLinkF_ne _ i _ k hki, getLinkId_setLinkF_ne _ i _ k hki]
                  exact e0 k
            · intro k j hkj
              by_cases hkn : k = n
              · rw [hkn, if_pos rfl] at hkj
                injection hkj with h2
                rw [← h2, if_pos rfl, hkn]
              · rw [if_neg hkn] at hkj
                by_cases hki : k = i
                · rw [hki, if_pos rfl] at hkj
                  injection hkj with h2
                  rw [← h2, if_neg hin, if_pos rfl, hki]
                · rw [if_neg hki] at hkj
                  have hjn : j ≠ n := by
                    intro hh
                    rw [hh] at hkj
                    have h3 := hs k n hkj
                    rw [hLn2] at h3
                    injection h3 with h4
                    exact hki h4.symm
                  have hji : j ≠ i := by
                    intro hh
                    rw [hh] at hkj
                    have h3 := hs k i hkj
                    rw [hLi2] at h3
                    injection h3 with h4
                    exact hkn h4.symm
                  rw [if_neg hjn, if_neg hji]
                  exact hs k j hkj
          · by_cases hdn2 : d = n
            · rw [hdn2]
              have hLn2 : getLinkId m n = some n := by rw [hLn, hdn2]
              have g1i : getLinkId (setLinkF A n (some i)) i = getLinkId m i := by
                rw [getLinkId_setLinkF_ne _ n _ i hin, e0 i]
              rw [g1i]
              cases hLi : getLinkId m i with
              | none =>
                have g2n : getLinkId (setLinkF A n (some i)) n = some i :=
                  getLinkId_setLinkF_self _ n (some i) _ mn
                have g2i : getLinkId (setLinkF A n (some i)) i = none := by
                  rw [getLinkId_setLinkF_ne _ n _ i hin, e0 i, hLi]
                rw [g2n, g2i]
                apply LinkSym_of_desc _ (fun k =>
                  if k = n then none else if k = i then some i else getLinkId m k)
                · intro k
                  simp only []
                  by_cases hkn : k = n
                  · rw [hkn, if_pos rfl, getLinkId_setLinkF_none]
                  · rw [if_neg hkn, getLinkId_setLinkF_ne _ n _ k hkn]
                    by_cases hki : k = i
                    · rw [hki, if_pos rfl]
                      refine getLinkId_setLinkF_live _ i (some i) ?_
                      unfold setLinkF
                      rw [mget_updTok_ne _ n i _ hin]
                      rw [mi]
                      rfl
                    · rw [if_neg hki, getLinkId_setLinkF_ne _ i _ k hki,
                          getLinkId_setLinkF_ne _ n _ k hkn]
                      exact e0 k
                · intro k j hkj
                  by_cases hkn : k = n
                  · rw [hkn, if_pos rfl] at hkj
                    cases hkj
                  · rw [if_neg hkn] at hkj
                    by_cases hki : k = i
                    · rw [hki, if_pos rfl] at hkj
                      injection hkj with h2
                      rw [← h2, if_neg hin, if_pos rfl, hki]
                    · rw [if_neg hki] at hkj
                      have hjn : j ≠ n := by
                        intro hh
                        rw [hh] at hkj
                        have h3 := hs k n hkj
                        rw [hLn2] at h3
                        injection h3 with h4
                        exact hkn h4.symm
                      have hji : j ≠ i := by
                        intro hh
                        rw [hh] at hkj
                        have h3 := hs k i hkj
                        rw [hLi] at h3
                        cases h3
                      rw [if_neg hjn, if_neg hji]
                      exact hs k j hkj
              | some c =>
                have hci : getLinkId m c = some i := hs i c hLi
                have hcn : c ≠ n := by
                  intro hh
                  rw [hh] at hci
                  rw [hLn2] at hci
                  injection hci with h4
                  exact hni h4
                by_cases hcieq : c = i
                · rw [hcieq]
                  have g2n : getLinkId (setLinkF (setLinkF A n (some i)) i (some n)) n = some i := by
                    rw [getLinkId_setLinkF_ne _ i _ n hni]
                    exact getLinkId_setLinkF_self _ n (some i) _ mn
                  have g2i : getLinkId (setLinkF (setLinkF A n (some i)) i (some n)) i = some n :=
                    getLinkId_setLinkF_self _ i (some n) _
                      (by unfold setLinkF; rw [mget_updTok_ne _ n i _ hin]; exact mi)
                  rw [g2n, g2i]
                  apply LinkSym_of_desc _ (fun k =>
                    if k = n then some n else if k = i then some i else getLinkId m k)
                  · intro k
                    simp only []
                    by_cases hkn : k = n
                    · rw [hkn, if_pos rfl]
                      refine getLinkId_setLinkF_live _ n (some n) ?_
                      unfold setLinkF
                      rw [mget_updTok_ne _ i n _ hni, mget_updTok_ne _ i n _ hni,
                          mget_updTok_self, mn]
                      rfl
                    · rw [if_neg hkn, getLinkId_setLinkF_ne _ n _ k hkn]
                      by_cases hki : k = i
                      · rw [hki, if_pos rfl]
                        refine getLinkId_setLinkF_live _ i (some i) ?_
                        unfold setLinkF
                        rw [mget_updTok_self, mget_updTok_ne _ n i _ hin, mi]
                        rfl
                      · rw [if_neg hki, getLinkId_setLinkF_ne _ i _ k hki,
                            getLinkId_setLinkF_ne _ i _ k hki, getLinkId_setLinkF_ne _ n _ k hkn]
                        exact e0 k
                  · intro k j hkj
                    by_cases hkn : k = n
                    · rw [hkn, if_pos rfl] at hkj
                      injection hkj with h2
                      rw [← h2, if_pos rfl, hkn]
                    · rw [if_neg hkn] at hkj
                      by_cases hki : k = i
                      · rw [hki, if_pos rfl] at hkj
                        injection hkj with h2
                        rw [← h2, if_neg hin, if_pos rfl, hki]
                      · rw [if_neg hki] at hkj
                        have hjn : j ≠ n := by
                          intro hh
                          rw [hh] at hkj
                          have h3 := hs k n hkj
                          rw [hLn2] at h3
                          injection h3 with h4
                          exact hkn h4.symm
                        have hji : j ≠ i := by
                          intro hh
                          rw [hh] at hkj
                          have h3 := hs k i hkj
                          rw [hLi] at h3
                          injection h3 with h4
                          rw [hcieq] at h4
                          exact hki h4.symm
                        rw [if_neg hjn, if_neg hji]
                        exact hs k j hkj
                · obtain ⟨tc, htc⟩ := live_of_link m c i hci
                  have mc : mget A c = some tc := by
                    rw [hA, mget_updTok_ne _ n c _ hcn, mget_updTok_ne _ i c _ hcieq]
                    exact htc
                  have m1c : mget (setLinkF A n (some i)) c = some tc := by
                    unfold setLinkF
                    rw [mget_updTok_ne _ n c _ hcn]
                    exact mc
                  have g2n : getLinkId (setLinkF (setLinkF A n (some i)) c (some n)) n = some i := by
                    rw [getLinkId_setLinkF_ne _ c _ n (Ne.symm hcn)]
                    exact getLinkId_setLinkF_self _ n (some i) _ mn
                  have g2i : getLinkId (setLinkF (setLinkF A n (some i)) c (some n)) i = some c := by
                    rw [getLinkId_setLinkF_ne _ c _ i (Ne.symm hcieq),
                        getLinkId_setLinkF_ne _ n _ i hin, e0 i, hLi]
                  rw [g2n, g2i]
                  apply LinkSym_of_desc _ (fun k =>
                    if k = n then some c else if k = i then some i
                    else if k = c then some n else getLinkId m k)
                  · intro k
                    simp only []
                    by_cases hkn : k = n
                    · rw [hkn, if_pos rfl]
                      refine getLinkId_setLinkF_live _ n (some c) ?_
                      unfold setLinkF
                      rw [mget_updTok_ne _ i n _ hni, mget_updTok_ne _ c n _ (Ne.symm hcn),
                          mget_updTok_self, mn]
                      rfl
                    · rw [if_neg hkn, getLinkId_setLinkF_ne _ n _ k hkn]
                      by_cases hki : k = i
                      · rw [hki, if_pos rfl]
                        refine getLinkId_setLinkF_live _ i (some i) ?_
                        unfold setLinkF
                        rw [mget_updTok_ne _ c i _ (Ne.symm hcieq),
                            mget_updTok_ne _ n i _ hin, mi]
                        rfl
                      · rw [if_neg hki, getLinkId_setLinkF_ne _ i _ k hki]
                        by_cases hkc : k = c
                        · rw [hkc, if_pos rfl]
                          exact getLinkId_setLinkF_self _ c (some n) _ m1c
                        · rw [if_neg hkc, getLinkId_setLinkF_ne _ c _ k hkc,
                              getLinkId_setLinkF_ne _ n _ k hkn]
                          exact e0 k
                  · intro k j hkj
                    by_cases hkn : k = n
                    · rw [hkn, if_pos rfl] at hkj
                      injection hkj with h2
                      rw [← h2, if_neg hcn, if_neg hcieq, if_pos rfl, hkn]
                    · rw [if_neg hkn] at hkj
                      by_cases hki : k = i
                      · rw [hki, if_pos rfl] at hkj
                        injection hkj with h2
                        rw [← h2, if_neg hin, if_pos rfl, hki]
                      · rw [if_neg hki] at hkj
                        by_cases hkc : k = c
                        · rw [hkc, if_pos rfl] at hkj
                          injection hkj with h2
                          rw [← h2, if_pos rfl, hkc]
                        · rw [if_neg hkc] at hkj
                          have hjn : j ≠ n := by
                            intro hh
                            rw [hh] at hkj
                            have h3 := hs k n hkj
                            rw [hLn2] at h3
                            injection h3 with h4
                            exact hkn h4.symm
                          have hji : j ≠ i := by
                            intro hh
                            rw [hh] at hkj
                            have h3 := hs k i hkj
                            rw [hLi] at h3
                            injection h3 with h4
                            exact hkc h4.symm
                          have hjc : j ≠ c := by
                            intro hh
                            rw [hh] at hkj
                            have h3 := hs k c hkj
                            rw [hci] at h3
                            injection h3 with h4
                            exact hki h4.symm
                          rw [if_neg hjn, if_neg hji, if_neg hjc]
                          exact hs k j hkj
            · have hnd : n ≠ d := fun hh => hdn2 hh.symm
              have hid : i ≠ d := fun hh => hdi hh.symm
              have md : mget A d = some td := by
                rw [hA, mget_updTok_ne _ n d _ hdn2, mget_updTok_ne _ i d _ hdi]
                exact htd
              have g1i : getLinkId (setLinkF A d (some i)) i = getLinkId m i := by
                rw [getLinkId_setLinkF_ne _ d _ i hid, e0 i]
              rw [g1i]
              cases hLi : getLinkId m i with
              | none =>
                have g2n : getLinkId (setLinkF A d (some i)) n = some d := by
                  rw [getLinkId_setLinkF_ne _ d _ n hnd, e0 n, hLn]
                have g2i : getLinkId (setLinkF A d (some i)) i = none := by
                  rw [getLinkId_setLinkF_ne _ d _ i hid, e0 i, hLi]
                rw [g2n, g2i]
                apply LinkSym_of_desc _ (fun k =>
                  if k = n then none else if k = i then some d
                  else if k = d then some i else getLinkId m k)
                · intro k
                  simp only []
                  by_cases hkn : k = n
                  · rw [hkn, if_pos rfl, getLinkId_setLinkF_none]
                  · rw [if_neg hkn, getLinkId_setLinkF_ne _ n _ k hkn]
                    by_cases hki : k = i
                    · rw [hki, if_pos rfl]
                      refine getLinkId_setLinkF_live _ i (some d) ?_
                      unfold setLinkF
                      rw [mget_updTok_ne _ d i _ hid]
                      rw [mi]
                      rfl
                    · rw [if_neg hki, getLinkId_setLinkF_ne _ i _ k hki]
                      by_cases hkd : k = d
                      · rw [hkd, if_pos rfl]
                        exact getLinkId_setLinkF_self _ d (some i) _ md
                      · rw [if_neg hkd, getLinkId_setLinkF_ne _ d _ k hkd]
                        exact e0 k
                · intro k j hkj
                  by_cases hkn : k = n
                  · rw [hkn, if_pos rfl] at hkj
                    cases hkj
                  · rw [if_neg hkn] at hkj
                    by_cases hki : k = i
                    · rw [hki, if_pos rfl] at hkj
                      injection hkj with h2
                      rw [← h2, if_neg hdn2, if_neg hdi, if_pos rfl, hki]
                    · rw [if_neg hki] at hkj
                      by_cases hkd : k = d
                      · rw [hkd, if_pos rfl] at hkj
                        injection hkj with h2
                        rw [← h2, if_neg hin, if_pos rfl, hkd]
                      · rw [if_neg hkd] at hkj
                        have hjn : j ≠ n := by
                          intro hh
                          rw [hh] at hkj
                          have h3 := hs k n hkj
                          rw [hLn] at h3
                          injection h3 with h4
                          exact hkd h4.symm
                        have hji : j ≠ i := by
                          intro hh
                          rw [hh] at hkj
                          have h3 := hs k i hkj
                          rw [hLi] at h3
                          cases h3
                        have hjd : j ≠ d := by
                          intro hh
                          rw [hh] at hkj
                          have h3 := hs k d hkj
                          rw [hdn] at h3
                          injection h3 with h4
                          exact hkn h4.symm
                        rw [if_neg hjn, if_neg hji, if_neg hjd]
                        exact hs k j hkj
              | some c =>
                have hci : getLinkId m c = some i := hs i c hLi
                have hcn : c ≠ n := by
                  intro hh
                  rw [hh] at hci
                  rw [hLn] at hci
                  injection hci with h4
                  exact hdi h4
                have hcd : c ≠ d := by
                  intro hh
                  rw [hh] at hci
                  rw [hdn] at hci
                  injection hci with h4
                  exact hni h4
                by_cases hcieq : c = i
                · rw [hcieq]
                  have g2n : getLinkId (setLinkF (setLinkF A d (some i)) i (some n)) n = some d := by
                    rw [getLinkId_setLinkF_ne _ i _ n hni, getLinkId_setLinkF_ne _ d _ n hnd,
                        e0 n, hLn]
                  have g2i : getLinkId (setLinkF (setLinkF A d (some i)) i (some n)) i = some n :=
                    getLinkId_setLinkF_self _ i (some n) _
                      (by unfold setLinkF; rw [mget_updTok_ne _ d i _ hid]; exact mi)
                  rw [g2n, g2i]
                  apply LinkSym_of_desc _ (fun k =>
                    if k = n then some n else if k = i then some d
                    else if k = d then some i else getLinkId m k)
                  · intro k
                    simp only []
                    by_cases hkn : k = n
                    · rw [hkn, if_pos rfl]
                      refine getLinkId_setLinkF_live _ n (some n) ?_
                      unfold setLinkF
                      rw [mget_updTok_ne _ i n _ hni, mget_updTok_ne _ i n _ hni,
                          mget_updTok_ne _ d n _ hnd]
                      rw [mn]
                      rfl
                    · rw [if_neg hkn, getLinkId_setLinkF_ne _ n _ k hkn]
                      by_cases hki : k = i
                      · rw [hki, if_pos rfl]
                        refine getLinkId_setLinkF_live _ i (some d) ?_
                        unfold setLinkF
                        rw [mget_updTok_self, mget_updTok_ne _ d i _ hid, mi]
                        rfl
                      · rw [if_neg hki, getLinkId_setLinkF_ne _ i _ k hki]
                        by_cases hkd : k = d
                        · rw [hkd, if_pos rfl, getLinkId_setLinkF_ne _ i _ d (Ne.symm hid)]
                          exact getLinkId_setLinkF_self _ d (some i) _ md
                        · rw [if_neg hkd, getLinkId_setLinkF_ne _ i _ k hki,
                              getLinkId_setLinkF_ne _ d _ k hkd]
                          exact e0 k
                  · intro k j hkj
                    by_cases hkn : k = n
                    · rw [hkn, if_pos rfl] at hkj
                      injection hkj with h2
                      rw [← h2, if_pos rfl, hkn]
                    · rw [if_neg hkn] at hkj
                      by_cases hki : k = i
                      · rw [hki, if_pos rfl] at hkj
                        injection hkj with h2
                        rw [← h2, if_neg hdn2, if_neg hdi, if_pos rfl, hki]
                      · rw [if_neg hki] at hkj
                        by_cases hkd : k = d
                        · rw [hkd, if_pos rfl] at hkj
                          injection hkj with h2
                          rw [← h2, if_neg hin, if_pos rfl, hkd]
                        · rw [if_neg hkd] at hkj
                          have hjn : j ≠ n := by
                            intro hh
                            rw [hh] at hkj
                            have h3 := hs k n hkj
                            rw [hLn] at h3
                            injection h3 with h4
                            exact hkd h4.symm
                          have hji : j ≠ i := by
                            intro hh
                            rw [hh] at hkj
                            have h3 := hs k i hkj
                            rw [hLi] at h3
                            injection h3 with h4
                            apply hki
                            rw [← h4, hcieq]
                          have hjd : j ≠ d := by
                            intro hh
                            rw [hh] at hkj
                            have h3 := hs k d hkj
                            rw [hdn] at h3
                            injection h3 with h4
                            exact hkn h4.symm
                          rw [if_neg hjn, if_neg hji, if_neg hjd]
                          exact hs k j hkj
                · obtain ⟨tc, htc⟩ := live_of_link m c i hci
                  have mc : mget A c = some tc := by
                    rw [hA, mget_updTok_ne _ n c _ hcn, mget_updTok_ne _ i c _ hcieq]
                    exact htc
                  have m1c : mget (setLinkF A d (some i)) c = some tc := by
                    unfold setLinkF
                    rw [mget_updTok_ne _ d c _ hcd]
                    exact mc
                  have g2n : getLinkId (setLinkF (setLinkF A d (some i)) c (some n)) n = some d := by
                    rw [getLinkId_setLinkF_ne _ c _ n (Ne.symm hcn),
                        getLinkId_setLinkF_ne _ d _ n hnd, e0 n, hLn]
                  have g2i : getLinkId (setLinkF (setLinkF A d (some i)) c (some n)) i = some c := by
                    rw [getLinkId_setLinkF_ne _ c _ i (Ne.symm hcieq),
                        getLinkId_setLinkF_ne _ d _ i hid, e0 i, hLi]
                  rw [g2n, g2i]
                  apply LinkSym_of_desc _ (fun k =>
                    if k = n then some c else if k = i then some d
                    else if k = c then some n else if k = d then some i else getLinkId m k)
                  · intro k
                    simp only []
                    by_cases hkn : k = n
                    · rw [hkn, if_pos rfl]
                      refine getLinkId_setLinkF_live _ n (some c) ?_
                      unfold setLinkF
                      rw [mget_updTok_ne _ i n _ hni, mget_updTok_ne _ c n _ (Ne.symm hcn),
                          mget_updTok_ne _ d n _ hnd]
                      rw [mn]
                      rfl
                    · rw [if_neg hkn, getLinkId_setLinkF_ne _ n _ k hkn]
                      by_cases hki : k = i
                      · rw [hki, if_pos rfl]
                        refine getLinkId_setLinkF_live _ i (some d) ?_
                        unfold setLinkF
                        rw [mget_updTok_ne _ c i _ (Ne.symm hcieq),
                            mget_updTok_ne _ d i _ hid, mi]
                        rfl
                      · rw [if_neg hki, getLinkId_setLinkF_ne _ i _ k hki]
                        by_cases hkc : k = c
                        · rw [hkc, if_pos rfl]
                          exact getLinkId_setLinkF_self _ c (some n) _ m1c
                        · rw [if_neg hkc, getLinkId_setLinkF_ne _ c _ k hkc]
                          by_cases hkd : k = d
                          · rw [hkd, if_pos rfl]
                            exact getLinkId_setLinkF_self _ d (some i) _ md
                          · rw [if_neg hkd, getLinkId_setLinkF_ne _ d _ k hkd]
                            exact e0 k
                  · intro k j hkj
                    by_cases hkn : k = n
                    · rw [hkn, if_pos rfl] at hkj
                      injection hkj with h2
                      rw [← h2, if_neg hcn, if_neg hcieq, if_pos rfl, hkn]
                    · rw [if_neg hkn] at hkj
                      by_cases hki : k = i
                      · rw [hki, if_pos rfl] at hkj
                        injection hkj with h2
                        rw [← h2, if_neg hdn2, if_neg hdi, if_neg (Ne.symm hcd), if_pos rfl, hki]
                      · rw [if_neg hki] at hkj
                        by_cases hkc : k = c
                        · rw [hkc, if_pos rfl] at hkj
                          injection hkj with h2
                          rw [← h2, if_pos rfl, hkc]
                        · rw [if_neg hkc] at hkj
                          by_cases hkd : k = d
                          · rw [hkd, if_pos rfl] at hkj
                            injection hkj with h2
                            rw [← h2, if_neg hin, if_pos rfl, hkd]
                          · rw [if_neg hkd] at hkj
                            have hjn : j ≠ n := by
                              intro hh
                              rw [hh] at hkj
                              have h3 := hs k n hkj
                              rw [hLn] at h3
                              injection h3 with h4
                              exact hkd h4.symm
                            have hji : j ≠ i := by
                              intro hh
                              rw [hh] at hkj
                              have h3 := hs k i hkj
                              rw [hLi] at h3
                              injection h3 with h4
                              exact hkc h4.symm
                            have hjc : j ≠ c := by
                              intro hh
                              rw [hh] at hkj
                              have h3 := hs k c hkj
                              rw [hci] at h3
                              injection h3 with h4
                              exact hki h4.symm
                            have hjd : j ≠ d := by
                              intro hh
                              rw [hh] at hkj
                              have h3 := hs k d hkj
                              rw [hdn] at h3
                              injection h3 with h4
                              exact hkn h4.symm
                            rw [if_neg hjn, if_neg hji, if_neg hjc, if_neg hjd]
                            exact hs k j hkj

theorem deleteThis_linkSym (s : TStream) (i : Nat)
    (hLi : getLinkId s.mem i = none)
    (hnext : ∀ n, getNextId s.mem i = some n → n ≠ i ∧ getLinkId s.mem n ≠ some n)
    (hprev : ∀ p, getNextId s.mem i = none → getPrevId s.mem i = some p →
      p ≠ i ∧ getLinkId s.mem p ≠ some p)
    (hs : LinkSym s.mem) :
    LinkSym (Token.deleteThis s i).mem := by
  cases hti : mget s.mem i with
  | none =>
    simp only [Token.deleteThis, hti]
    exact hs
  | some t =>
    cases htn : t.nnext with
    | some n =>
      have hgN : getNextId s.mem i = some n := by
        unfold getNextId
        rw [hti]
        exact htn
      obtain ⟨hni2, hLnn⟩ := hnext n hgN
      have hin2 : i ≠ n := Ne.symm hni2
      simp only [Token.deleteThis, hti, htn]
      apply deleteNext_linkSym
      show LinkSym (setLinkF (Token.takeData s.mem i n) n none)
      unfold Token.takeData
      rw [hti]
      cases htu : mget s.mem n with
      | none =>
        have hLn0 : getLinkId s.mem n = none := by
          unfold getLinkId
          rw [htu]
          rfl
        refine LinkSym_of_eqLinks s.mem _ (fun k => ?_) hs
        by_cases hk : k = n
        · rw [hk, getLinkId_setLinkF_none, hLn0]
        · rw [getLinkId_setLinkF_ne _ n _ k hk]
      | some u =>
        simp only []
        cases hL : u.link with
        | none =>
          have hLn0 : getLinkId s.mem n = none := by
            unfold getLinkId
            rw [htu]
            exact hL
          apply LinkSym_of_desc _ (fun k => if k = n then none else getLinkId s.mem k)
          · intro k
            simp only []
            by_cases hk : k = n
            · rw [hk, if_pos rfl, getLinkId_setLinkF_none]
            · rw [if_neg hk, getLinkId_setLinkF_ne _ n _ k hk]
              by_cases hki : k = i
              · rw [hki]
                have e1 : getLinkId (updTok s.mem i
                    (fun _ => { copyPayload t u with link := none })) i = none := by
                  unfold getLinkId
                  rw [mget_updTok_self, hti]
                  rfl
                rw [e1, hLi]
              · unfold getLinkId
                rw [mget_updTok_ne _ i k _ hki]
          · intro k j hkj
            by_cases hk : k = n
            · rw [hk, if_pos rfl] at hkj
              cases hkj
            · rw [if_neg hk] at hkj
              have hjn : j ≠ n := by
                intro hh
                rw [hh] at hkj
                have h3 := hs k n hkj
                rw [hLn0] at h3
                cases h3
              rw [if_neg hjn]
              exact hs k j hkj
        | some j0 =>
          have hLn0 : getLinkId s.mem n = some j0 := by
            unfold getLinkId
            rw [htu]
            exact hL
          have hj0n : j0 ≠ n := by
            intro hh
            rw [hh] at hLn0
            exact hLnn hLn0
          have hj0i : j0 ≠ i := by
            intro hh
            rw [hh] at hLn0
            have h3 := hs n i hLn0
            rw [hLi] at h3
            cases h3
          have hsym0 := hs n j0 hLn0
          obtain ⟨tj, htj⟩ := live_of_link s.mem j0 n hsym0
          apply LinkSym_of_desc _ (fun k =>
            if k = n then none else if k = i then some j0
            else if k = j0 then some i else getLinkId s.mem k)
          · intro k
            simp only []
            by_cases hk : k = n
            · rw [hk, if_pos rfl, getLinkId_setLinkF_none]
            · rw [if_neg hk, getLinkId_setLinkF_ne _ n _ k hk]
              by_cases hki : k = i
              · rw [hki, if_pos rfl, getLinkId_setLinkF_ne _ j0 _ i (Ne.symm hj0i)]
                unfold getLinkId
                rw [mget_updTok_self, hti]
                rfl
              · rw [if_neg hki]
                by_cases hkj0 : k = j0
                · rw [hkj0, if_pos rfl]
                  refine getLinkId_setLinkF_live _ j0 (some i) ?_
                  rw [mget_updTok_ne _ i j0 _ hj0i, htj]
                  rfl
                · rw [if_neg hkj0, getLinkId_setLinkF_ne _ j0 _ k hkj0]
                  unfold getLinkId
                  rw [mget_updTok_ne _ i k _ hki]
          · intro k j hkj
            by_cases hk : k = n
            · rw [hk, if_pos rfl] at hkj
              cases hkj
            · rw [if_neg hk] at hkj
              by_cases hki : k = i
              · rw [hki, if_pos rfl] at hkj
                injection hkj with h2
                rw [← h2, if_neg hj0n, if_neg hj0i, if_pos rfl, hki]
              · rw [if_neg hki] at hkj
                by_cases hkj0 : k = j0
                · rw [hkj0, if_pos rfl] at hkj
                  injection hkj with h2
                  rw [← h2, if_neg hin2, if_pos rfl, hkj0]
                · rw [if_neg hkj0] at hkj
                  have hjn : j ≠ n := by
                    intro hh
                    rw [hh] at hkj
                    have h3 := hs k n hkj
                    rw [hLn0] at h3
                    injection h3 with h4
                    exact hkj0 h4.symm
                  have hji : j ≠ i := by
                    intro hh
                    rw [hh] at hkj
                    have h3 := hs k i hkj
                    rw [hLi] at h3
                    cases h3
                  have hjj0 : j ≠ j0 := by
                    intro hh
                    rw [hh] at hkj
                    have h3 := hs k j0 hkj
                    rw [hsym0] at h3
                    injection h3 with h4
                    exact hk h4.symm
                  rw [if_neg hjn, if_neg hji, if_neg hjj0]
                  exact hs k j hkj
    | none =>
      have hgN : getNextId s.mem i = none := by
        unfold getNextId
        rw [hti]
        exact htn
      cases htp : t.nprev with
      | none =>
        simp only [Token.deleteThis, hti, htn, htp]
        show LinkSym (updTok s.mem i (fun t0 => strAssign t0 []))
        refine LinkSym_of_eqLinks s.mem _
          (fun k => getLinkId_updTok_linkpres s.mem i _ (fun x => strAssign_link x []) k) hs
      | some p =>
        have hgP : getPrevId s.mem i = some p := by
          unfold getPrevId
          rw [hti]
          exact htp
        obtain ⟨hpi2, hLpp⟩ := hprev p hgN hgP
        have hip2 : i ≠ p := Ne.symm hpi2
        cases hbp : (mget s.mem p).bind (fun q => q.nprev) with
        | none =>
          simp only [Token.deleteThis, hti, htn, htp, hbp]
          show LinkSym (updTok s.mem i (fun t0 => strAssign t0 []))
          refine LinkSym_of_eqLinks s.mem _
            (fun k => getLinkId_updTok_linkpres s.mem i _ (fun x => strAssign_link x []) k) hs
        | some pp =>
          simp only [Token.deleteThis, hti, htn, htp, hbp]
          have hup : ∃ tp, mget s.mem p = some tp := by
            cases hq : mget s.mem p with
            | none =>
              rw [hq] at hbp
              cases hbp
            | some x => exact ⟨x, rfl⟩
          obtain ⟨tp, htpp⟩ := hup
          unfold Token.takeData
          rw [hti, htpp]
          simp only []
          cases hL : tp.link with
          | none =>
            have hLp0 : getLinkId s.mem p = none := by
              unfold getLinkId
              rw [htpp]
              exact hL
            apply LinkSym_of_desc _ (fun k => if k = p then none else getLinkId s.mem k)
            · intro k
              simp only []
              by_cases hk : k = p
              · rw [hk, if_pos rfl, getLinkId_mdel_self]
              · rw [if_neg hk, getLinkId_mdel_ne _ p k hk, getLinkId_setNextF,
                    getLinkId_setPrevF]
                by_cases hki : k = i
                · rw [hki]
                  have e1 : getLinkId (updTok s.mem i
                      (fun _ => { copyPayload t tp with link := none })) i = none := by
                    unfold getLinkId
                    rw [mget_updTok_self, hti]
                    rfl
                  rw [e1, hLi]
                · unfold getLinkId
                  rw [mget_updTok_ne _ i k _ hki]
            · intro k j hkj
              by_cases hk : k = p
              · rw [hk, if_pos rfl] at hkj
                cases hkj
              · rw [if_neg hk] at hkj
                have hjp : j ≠ p := by
                  intro hh
                  rw [hh] at hkj
                  have h3 := hs k p hkj
                  rw [hLp0] at h3
                  cases h3
                rw [if_neg hjp]
                exact hs k j hkj
          | some j0 =>
            have hLp0 : getLinkId s.mem p = some j0 := by
              unfold getLinkId
              rw [htpp]
              exact hL
            have hj0p : j0 ≠ p := by
              intro hh
              rw [hh] at hLp0
              exact hLpp hLp0
            have hj0i : j0 ≠ i := by
              intro hh
              rw [hh] at hLp0
              have h3 := hs p i hLp0
              rw [hLi] at h3
              cases h3
            have hsym0 := hs p j0 hLp0
            obtain ⟨tj, htj⟩ := live_of_link s.mem j0 p hsym0
            apply LinkSym_of_desc _ (fun k =>
              if k = p then none else if k = i then some j0
              else if k = j0 then some i else getLinkId s.mem k)
            · intro k
              simp only []
              by_cases hk : k = p
              · rw [hk, if_pos rfl, getLinkId_mdel_self]
              · rw [if_neg hk, getLinkId_mdel_ne _ p k hk, getLinkId_setNextF,
                    getLinkId_setPrevF]
                by_cases hki : k = i
                · rw [hki, if_pos rfl, getLinkId_setLinkF_ne _ j0 _ i (Ne.symm hj0i)]
                  unfold getLinkId
                  rw [mget_updTok_self, hti]
                  rfl
                · rw [if_neg hki]
                  by_cases hkj0 : k = j0
                  · rw [hkj0, if_pos rfl]
                    refine getLinkId_setLinkF_live _ j0 (some i) ?_
                    rw [mget_updTok_ne _ i j0 _ hj0i, htj]
                    rfl
                  · rw [if_neg hkj0, getLinkId_setLinkF_ne _ j0 _ k hkj0]
                    unfold getLinkId
                    rw [mget_updTok_ne _ i k _ hki]
            · intro k j hkj
              by_cases hk : k = p
              · rw [hk, if_pos rfl] at hkj
                cases hkj
              · rw [if_neg hk] at hkj
                by_cases hki : k = i
                · rw [hki, if_pos rfl] at hkj
                  injection hkj with h2
                  rw [← h2, if_neg hj0p, if_neg hj0i, if_pos rfl, hki]
                · rw [if_neg hki] at hkj
                  by_cases hkj0 : k = j0
                  · rw [hkj0, if_pos rfl] at hkj
                    injection hkj with h2
                    rw [← h2, if_neg hip2, if_pos rfl, hkj0]
                  · rw [if_neg hkj0] at hkj
                    have hjp : j ≠ p := by
                      intro hh
                      rw [hh] at hkj
                      have h3 := hs k p hkj
                      rw [hLp0] at h3
                      injection h3 with h4
                      exact hkj0 h4.symm
                    have hji : j ≠ i := by
                      intro hh
                      rw [hh] at hkj
                      have h3 := hs k i hkj
                      rw [hLi] at h3
                      cases h3
                    have hjj0 : j ≠ j0 := by
                      intro hh
                      rw [hh] at hkj
                      have h3 := hs k j0 hkj
                      rw [hsym0] at h3
                      injection h3 with h4
                      exact hk h4.symm
                    rw [if_neg hjp, if_neg hji, if_neg hjj0]
                    exact hs k j hkj

/-- C1 (corrected): bracket-link symmetry is preserved by `deleteNext`,
`deletePrevious`, `swapWithNext` (on a token that is not its own
successor) and `insertToken` whenever it held before.  It is *not* an
unconditional invariant of `createMutualLinks` and `deleteThis`:
`createMutualLinks` keeps symmetry when both endpoints are live, distinct
and previously unlinked, and `deleteThis` keeps it when the receiver is
unlinked and the copied-from neighbour is not linked to itself — outside
these conditions the old peer of an overwritten link is left dangling
(see the counterexample, where deleting a linked `(` breaks the pair). -/
theorem C1_link_symmetry (s : TStream) (hs : LinkSym s.mem) :
    (∀ i count, LinkSym (Token.deleteNext s i count).mem) ∧
    (∀ i count, LinkSym (Token.deletePrevious s i count).mem) ∧
    (∀ i, getNextId s.mem i ≠ some i → LinkSym (Token.swapWithNext s.mem i)) ∧
    (∀ i tokenStr origNameStr prepend,
      LinkSym (Token.insertToken s i tokenStr origNameStr prepend).mem) ∧
    (∀ a b, a ≠ b → (mget s.mem a).isSome = true → (mget s.mem b).isSome = true →
      getLinkId s.mem a = none → getLinkId s.mem b = none →
      LinkSym (Token.createMutualLinks s.mem a b)) ∧
    (∀ i, getLinkId s.mem i = none →
      (∀ n, getNextId s.mem i = some n → n ≠ i ∧ getLinkId s.mem n ≠ some n) →
      (∀ p, getNextId s.mem i = none → getPrevId s.mem i = some p →
        p ≠ i ∧ getLinkId s.mem p ≠ some p) →
      LinkSym (Token.deleteThis s i).mem) := by
  refine ⟨fun i count => deleteNext_linkSym s i count hs,
          fun i count => deletePrevious_linkSym s i count hs,
          fun i h => swapWithNext_linkSym s.mem i h hs,
          fun i ts os pre => insertToken_linkSym s i ts os pre hs,
          fun a b hab ha hb hLa hLb => ?_,
          fun i h1 h2 h3 => deleteThis_linkSym s i h1 h2 h3 hs⟩
  obtain ⟨ta, hta⟩ := Option.isSome_iff_exists.mp ha
  obtain ⟨tb, htb⟩ := Option.isSome_iff_exists.mp hb
  exact createMutualLinks_linkSym s.mem a b ta tb hab hta htb hLa hLb hs

/-- Witness for C1: the `( x )` stream satisfies link symmetry (checked
executably) and `deleteNext` keeps it. -/
theorem C1_link_symmetry_witness :
    linkSymB exPar.mem = true ∧ LinkSym (Token.deleteNext exPar 0 1).mem :=
  ⟨by decide, (C1_link_symmetry exPar (linkSymb_sound _ (by decide))).1 0 1⟩

/-- Counterexample to C1 as stated: link symmetry held in `( x )` but
`deleteThis` on the linked `(` token overwrites its link with the
successor's null link, leaving `)` pointing at a token that no longer
points back. -/
theorem C1_counterexample :
    LinkSym exPar.mem ∧ ¬ LinkSym (Token.deleteThis exPar 0).mem :=
  ⟨linkSymb_sound _ (by decide),
   fun h => absurd (h 2 0 (by decide)) (by decide)⟩
